import Mathlib

/-! Shard routing and stream concatenation of the pachyderm route packages.

A shallow embedding of `src/route/route.go` (package `route`: shard
descriptors, `Match`, `multiReadCloser`, `Multicast`, `MulticastHttp`) and of
`src/pfs/route/router.go` (the `router` built on an `Addresser` and a
`Dialer`), followed by the theorems that settle the properties claimed of
them.

Conventions of the embedding:

* a Go `string` is the list of its bytes (`GoString`);
* a `uint64` is a `Nat`, reduced `% 2 ^ 64` where the source can overflow;
* a Go function returning `(value, error)` returns an `Outcome`, which also
  has a case for a run-time panic;
* library functions the source calls (`strings.Split`, `strconv.ParseUint`,
  `fmt.Sprint`, `adler32.Checksum`, `io.Copy`) are written out from their
  documented behaviour, under their library names;
* the goroutines of `Multicast` are taken in the order in which they record
  their outcome, which is any permutation of the endpoints.
-/

namespace Route

/-! ## Data model -/

/-- The bytes of a Go `string`. -/
abbrev GoString := List UInt8

/-- The bytes of an ASCII literal, used to write descriptors readably. -/
def bytes (s : String) : GoString := s.data.map (fun c => UInt8.ofNat c.toNat)

/-- Go `error` values that occur in package `route`. `invalidDigits` is
`strconv.ErrSyntax` and `outOfRange` is `strconv.ErrRange` (as wrapped in a
`*strconv.NumError`), `EOF` is `io.EOF`, `noHosts` is `ErrNoHosts`, and `other`
is any other error, identified by its message. -/
inductive GoError
  | EOF
  | invalidDigits
  | outOfRange
  | noHosts
  | other (msg : String)
  deriving DecidableEq, Repr

/-- The three ways a Go call can end: `ok a` is a return with a nil error,
`err e` is a return with the non-nil error `e` (next to the zero values the
source returns with it), `fault` is a run-time panic (index out of range,
integer division by zero). -/
inductive Outcome (ε α : Type)
  | ok (a : α)
  | err (e : ε)
  | fault
  deriving DecidableEq, Repr

/-! ## Library functions -/

/-- The largest `uint64`. -/
def maxUint64 : Nat := 2 ^ 64 - 1

/-- The constant `cutoff` of `strconv.ParseUint` for base 10: the smallest
number whose tenfold exceeds `maxUint64`. -/
def cutoff : Nat := maxUint64 / 10 + 1

/-- The digit loop of `strconv.ParseUint(s, 10, 64)`; `n` is the value
accumulated so far. Returns the pair `(n, err)` of the library function. -/
def parseLoop : GoString → Nat → Nat × Option GoError
  | [], n => (n, none)
  | c :: cs, n =>
    -- case '0' <= c && c <= '9': d = c - '0'
    -- case 'a' <= lower(c) && lower(c) <= 'z': d = lower(c) - 'a' + 10
    -- default: syntax error
    let lower := c.toNat ||| 32
    let digit : Option Nat :=
      if 48 ≤ c.toNat ∧ c.toNat ≤ 57 then some (c.toNat - 48)
      else if 97 ≤ lower ∧ lower ≤ 122 then some (lower - 97 + 10)
      else none
    match digit with
    | none => (0, some GoError.invalidDigits)
    | some d =>
      if d ≥ 10 then (0, some GoError.invalidDigits)
      else if n ≥ cutoff then (maxUint64, some GoError.outOfRange)
      else
        let n10 := (n * 10) % 2 ^ 64
        let n1 := (n10 + d) % 2 ^ 64
        if n1 < n10 ∨ n1 > maxUint64 then (maxUint64, some GoError.outOfRange)
        else parseLoop cs n1

/-- Library `strconv.ParseUint(s, 10, 64)`: the empty string is a syntax
error, otherwise the digit loop runs from 0. -/
def ParseUint (s : GoString) : Nat × Option GoError :=
  if s = [] then (0, some GoError.invalidDigits) else parseLoop s 0

/-- Library `strings.Split(s, sep)` for a one-byte separator: the substrings
between the separators; a string without separator gives the one-element
slice holding the string itself. -/
def Split (sep : UInt8) : GoString → List GoString
  | [] => [[]]
  | c :: cs =>
    if c = sep then [] :: Split sep cs
    else
      match Split sep cs with
      | [] => [[c]]
      | h :: t => (c :: h) :: t

/-- The digit loop of `strconv.FormatUint(n, 10)`: the decimal digits of `n`
are put in front of `acc`, least significant first; `fuel` bounds the number
of digits written. -/
def formatLoop : Nat → Nat → GoString → GoString
  | 0, _, acc => acc
  | fuel + 1, n, acc =>
    let acc1 := UInt8.ofNat (48 + n % 10) :: acc
    if n / 10 = 0 then acc1 else formatLoop fuel (n / 10) acc1

/-- What `fmt.Sprint` writes for a `uint64`: its decimal digits, without
sign or leading zero (a `uint64` has at most 20 digits). -/
def decimal (n : Nat) : GoString := formatLoop 20 n []

/-- Library `adler32.Checksum` state update: the two running sums modulo
65521, the first starting at 1 and the second at 0. -/
def adlerSums : GoString → Nat × Nat → Nat × Nat
  | [], s => s
  | c :: cs, (s1, s2) =>
    let t1 := (s1 + c.toNat) % 65521
    adlerSums cs (t1, (s2 + t1) % 65521)

/-- Library `adler32.Checksum(data)`: `s2 << 16 | s1`, a `uint32`. -/
def adler32Checksum (data : GoString) : Nat :=
  let s := adlerSums data (1, 0)
  s.2 * 65536 + s.1

/-! ## Shard descriptors (`route.go`, lines 24-57) -/

/-- `HashResource`: the Adler-32 checksum of the resource, widened to
`uint64`. -/
def HashResource (resource : GoString) : Nat :=
  adler32Checksum resource % 2 ^ 64

/-- `ParseShard`: splits the descriptor at `"-"`, parses element 0 and then
element 1 of the split. Element 0 always exists; indexing element 1 of a
one-element slice panics. -/
def ParseShard (shardDesc : GoString) : Outcome GoError (Nat × Nat) :=
  let s_m := Split 45 shardDesc
  match s_m.get? 0 with
  | none => Outcome.fault
  | some p0 =>
    match ParseUint p0 with
    | (_, some e) => Outcome.err e
    | (shard, none) =>
      match s_m.get? 1 with
      | none => Outcome.fault
      | some p1 =>
        match ParseUint p1 with
        | (_, some e) => Outcome.err e
        | (modulos, none) => Outcome.ok (shard, modulos)

/-- `Match`: whether the resource hashes to the shard of the descriptor.
The `%` of Go panics on a zero divisor. -/
def Match (resource shardDesc : GoString) : Outcome GoError Bool :=
  match ParseShard shardDesc with
  | Outcome.err e => Outcome.err e
  | Outcome.fault => Outcome.fault
  | Outcome.ok (shard, modulos) =>
    if modulos = 0 then Outcome.fault
    else Outcome.ok (decide (HashResource resource % modulos = shard))

/-- The `bucket` of `Route` (line 56): the hash of the request path modulo
`modulos`; a zero `modulos` panics. -/
def routeBucket (urlPath : GoString) (modulos : Nat) : Outcome GoError Nat :=
  if modulos = 0 then Outcome.fault
  else Outcome.ok (HashResource urlPath % modulos)

/-- The descriptor `fmt.Sprint(bucket, "-", fmt.Sprint(modulos))` of `Route`
(line 57): `Sprint` puts no space next to a string operand. -/
def shardString (bucket modulos : Nat) : GoString :=
  decimal bucket ++ bytes "-" ++ decimal modulos

/-- The descriptor `Route` looks up for a request path (lines 56-57). -/
def routeShard (urlPath : GoString) (modulos : Nat) : Outcome GoError GoString :=
  match routeBucket urlPath modulos with
  | Outcome.ok bucket => Outcome.ok (shardString bucket modulos)
  | Outcome.err e => Outcome.err e
  | Outcome.fault => Outcome.fault

/-! ## Descriptor vocabulary used by the statements -/

/-- A byte that is an ASCII decimal digit. -/
def isDigit (c : UInt8) : Prop := 48 ≤ c.toNat ∧ c.toNat ≤ 57

instance (c : UInt8) : Decidable (isDigit c) := by unfold isDigit; infer_instance

/-- The number a digit string denotes when read after the value `n`. -/
def valFrom (n : Nat) (ds : GoString) : Nat :=
  ds.foldl (fun a c => a * 10 + (c.toNat - 48)) n

/-- A string that `strconv.ParseUint` reads as a decimal number, apart from
its size: not empty and made of decimal digits only. -/
def isDecimal (s : GoString) : Prop := s ≠ [] ∧ ∀ c ∈ s, isDigit c

instance (s : GoString) : Decidable (isDecimal s) := by unfold isDecimal; infer_instance

/-! ## The streaming concatenator (`route.go`, lines 95-139) -/

/-- The result of one `Read(p)` call on a sub-stream: the bytes it put in
`p[:n]` and the error it returned (`none` is nil). -/
abbrev ReadResult := GoString × Option GoError

/-- An `io.ReadCloser` handed to `MultiReadCloser`, as the trace of what it
will answer. `script` lists the results of its coming `Read` calls, whatever
chunk sizes it chooses; once the script is used up every `Read` returns
`(0, io.EOF)`. `closeErr` is what its `Close` returns, `closed` counts the
calls of `Close` so far, and `name` tells the objects apart. -/
structure ReadCloser where
  name : Nat
  script : List ReadResult
  closeErr : Option GoError
  closed : Nat
  deriving DecidableEq, Repr

/-- One `Read` call on a sub-stream: the next scripted result, or
`(0, io.EOF)` after the script. -/
def ReadCloser.Read (r : ReadCloser) : ReadResult × ReadCloser :=
  match r.script with
  | [] => (([], some GoError.EOF), r)
  | s :: rest => (s, ReadCloser.mk r.name rest r.closeErr r.closed)

/-- One `Close` call on a sub-stream. -/
def ReadCloser.Close (r : ReadCloser) : Option GoError × ReadCloser :=
  (r.closeErr, ReadCloser.mk r.name r.script r.closeErr (r.closed + 1))

/-- The struct `multiReadCloser`. `readers` is the slice field. `released`
is not a field of the source: it keeps, in order, the sub-streams that
`mr.readers = mr.readers[1:]` has dropped from the slice, so that their
state stays observable. -/
structure multiReadCloser where
  readers : List ReadCloser
  released : List ReadCloser
  deriving DecidableEq, Repr

/-- The loop of `multiReadCloser.Read` over `mr.readers`. -/
def readLoop (released : List ReadCloser) :
    List ReadCloser → ReadResult × multiReadCloser
  | [] => (([], some GoError.EOF), multiReadCloser.mk [] released)
  | r :: rest =>
    -- n, err = mr.readers[0].Read(p)
    let res := r.Read
    if res.1.1.length > 0 ∨ res.1.2 ≠ some GoError.EOF then
      ((res.1.1, if res.1.2 = some GoError.EOF then none else res.1.2),
        multiReadCloser.mk (res.2 :: rest) released)
    else
      -- err = mr.readers[0].Close()
      let c := res.2.Close
      if c.1 ≠ none then ((res.1.1, c.1), multiReadCloser.mk (c.2 :: rest) released)
      else readLoop (released ++ [c.2]) rest

/-- `multiReadCloser.Read`: the bytes delivered, the error returned and the
state left behind. -/
def multiReadCloser.Read (mr : multiReadCloser) : ReadResult × multiReadCloser :=
  readLoop mr.released mr.readers

/-- The loop of `multiReadCloser.Close` over `mr.readers`. -/
def closeLoop (released : List ReadCloser) :
    List ReadCloser → Option GoError × multiReadCloser
  | [] => (none, multiReadCloser.mk [] released)
  | r :: rest =>
    let c := r.Close
    if c.1 ≠ none then (c.1, multiReadCloser.mk (c.2 :: rest) released)
    else closeLoop (released ++ [c.2]) rest

/-- `multiReadCloser.Close`: the error returned and the state left behind. -/
def multiReadCloser.Close (mr : multiReadCloser) : Option GoError × multiReadCloser :=
  closeLoop mr.released mr.readers

/-- `MultiReadCloser(readers...)`: a fresh struct over a copy of the
arguments. -/
def MultiReadCloser (readers : List ReadCloser) : multiReadCloser :=
  multiReadCloser.mk readers []

/-! ## Clients and vocabulary of the concatenator -/

/-- A client that calls `Read` until it returns an error: the bytes
received, the error that ended the loop (`io.EOF` at a regular end) and the
final state. `none` when `fuel` calls were not enough. -/
def drain : Nat → multiReadCloser → GoString → Option (GoString × GoError × multiReadCloser)
  | 0, _, _ => none
  | fuel + 1, mr, acc =>
    let res := mr.Read
    match res.1.2 with
    | some e => some (acc ++ res.1.1, e, res.2)
    | none => drain fuel res.2 (acc ++ res.1.1)

/-- The state after `k` calls of `Read` whose results the client consumed. -/
def readN : Nat → multiReadCloser → multiReadCloser
  | 0, mr => mr
  | k + 1, mr => readN k mr.Read.2

/-- The bytes a sub-stream holds: its scripted chunks, concatenated. -/
def contents (r : ReadCloser) : GoString := (r.script.map Prod.fst).flatten

/-- A script that delivers its chunks with a nil error, except that the last
chunk may come with `io.EOF`: no other error, and nothing after an
`io.EOF`. -/
def endsCleanly : List ReadResult → Prop
  | [] => True
  | s :: rest => (s.2 = none ∨ (s.2 = some GoError.EOF ∧ rest = [])) ∧ endsCleanly rest

/-- Two conditions on a sub-stream, kept apart in the statements: its reads
deliver its bytes and then end-of-file without other errors
(`endsCleanly r.script`), and, besides, its `Close` returns nil. -/
def WellBehaved (r : ReadCloser) : Prop := endsCleanly r.script ∧ r.closeErr = none

/-- A sub-stream whose next `Read` returns `(0, io.EOF)`. -/
def atEOF (r : ReadCloser) : Prop := r.Read.1 = ([], some GoError.EOF)

/-- The sub-stream as `multiReadCloser.Read` leaves it when it drops it:
read once more and closed. -/
def release (r : ReadCloser) : ReadCloser := r.Read.2.Close.2

/-- The number of `Read` calls that are enough to drain the sub-streams. -/
def steps (rs : List ReadCloser) : Nat := (rs.map (fun r => r.script.length)).sum

/-- Every sub-stream the concatenator was given, dropped ones first. -/
def multiReadCloser.all (mr : multiReadCloser) : List ReadCloser :=
  mr.released ++ mr.readers

/-- The bookkeeping of closes: the sub-streams are the ones with the names
`names`, the dropped ones have been closed once, the others never, and no
`Close` fails. -/
def Tracked (names : List Nat) (mr : multiReadCloser) : Prop :=
  mr.all.map ReadCloser.name = names ∧
  (∀ r ∈ mr.released, r.closed = 1) ∧
  (∀ r ∈ mr.readers, r.closed = 0) ∧
  (∀ r ∈ mr.readers, r.closeErr = none)

/-! ## Sample sub-streams -/

/-- Three sub-streams holding "ab" (in two chunks), nothing, and "c"
(delivered together with `io.EOF`): the middle one is empty. -/
def threeStreams : List ReadCloser :=
  [ReadCloser.mk 0 [(bytes "a", none), (bytes "b", none)] none 0,
   ReadCloser.mk 1 [] none 0,
   ReadCloser.mk 2 [(bytes "c", some GoError.EOF)] none 0]

/-- An empty sub-stream whose `Close` returns `io.EOF`, followed by a
sub-stream that holds "x". -/
def closeReturnsEOF : List ReadCloser :=
  [ReadCloser.mk 0 [] (some GoError.EOF) 0,
   ReadCloser.mk 1 [(bytes "x", none)] none 0]

/-- A sub-stream that holds "a" and whose `Close` returns an error, followed
by a sub-stream that holds "b". Both read without error. -/
def closeFails : List ReadCloser :=
  [ReadCloser.mk 0 [(bytes "a", none)] (some (GoError.other "close failed")) 0,
   ReadCloser.mk 1 [(bytes "b", some GoError.EOF)] none 0]

/-- An empty sub-stream, then one that fails with a connection error after
delivering "p", then one that holds "q". -/
def failingStreams : List ReadCloser :=
  [ReadCloser.mk 0 [] none 0,
   ReadCloser.mk 1 [(bytes "p", some (GoError.other "connection reset")), (bytes "r", none)] none 0,
   ReadCloser.mk 2 [(bytes "q", none)] none 0]

instance decEndsCleanly : (s : List ReadResult) → Decidable (endsCleanly s)
  | [] => isTrue trivial
  | s :: rest =>
    have : Decidable (endsCleanly rest) := decEndsCleanly rest
    by unfold endsCleanly; infer_instance

instance (r : ReadCloser) : Decidable (WellBehaved r) := by unfold WellBehaved; infer_instance

instance (r : ReadCloser) : Decidable (atEOF r) := by unfold atEOF; infer_instance

end Route


namespace Route

/-! ## Multicast (`route.go`, lines 141-209) -/

/-- An `*http.Response`, with what the package reads of it: the status, the
header `Boundary` (`Header.Get("Boundary")`, empty when absent) and the
body. -/
structure Response where
  StatusCode : Nat
  Status : String
  Boundary : String
  Body : ReadCloser
  deriving DecidableEq, Repr

/-- What becomes of the request a worker makes for one endpoint:
`http.NewRequest` fails (`notBuilt`), `httpClient.Do` fails with a transport
error (`notSent`), or `Do` returns a response. -/
inductive Attempt
  | notBuilt (e : GoError)
  | notSent (e : GoError)
  | answered (resp : Response)
  deriving DecidableEq, Repr

/-- An `*etcd.Node` listed under the key: the endpoint in `Value`, and, as
the network's part, what becomes of the request sent to it. -/
structure Node where
  Value : String
  attempt : Attempt
  deriving DecidableEq, Repr

/-- The inbound `*http.Request`: `URL` is `r.URL.String()`, and `Body` is
what `ioutil.ReadAll(r.Body)` returns when it is called. -/
structure Request where
  Method : String
  URL : String
  ContentLength : Int
  Body : Except GoError GoString

/-- The variables the workers share, and what they did: `resps` is the slice
appended to under the lock, `errors` the channel in the order of the sends,
`issued` the endpoints `httpClient.Do` was called for and `obtained` the
responses `Do` returned. -/
structure FanOut where
  resps : List Response
  errors : List GoError
  issued : List Node
  obtained : List Response
  deriving DecidableEq, Repr

/-- The error a worker makes for a status other than 200:
`fmt.Errorf("Failed request (%s) to %s.", resp.Status, r.URL.String())`. -/
def failedRequest (r : Request) (resp : Response) : GoError :=
  GoError.other ("Failed request (" ++ resp.Status ++ ") to " ++ r.URL ++ ".")

/-- The work of the goroutines (lines 172-197), taken in the order in which
they reach the channel or the lock. -/
def fanOut (r : Request) : List Node → FanOut → FanOut
  | [], s => s
  | node :: rest, s =>
    match node.attempt with
    | Attempt.notBuilt e =>
      fanOut r rest (FanOut.mk s.resps (s.errors ++ [e]) s.issued s.obtained)
    | Attempt.notSent e =>
      fanOut r rest (FanOut.mk s.resps (s.errors ++ [e]) (s.issued ++ [node]) s.obtained)
    | Attempt.answered resp =>
      if resp.StatusCode ≠ 200 then
        fanOut r rest (FanOut.mk s.resps (s.errors ++ [failedRequest r resp])
          (s.issued ++ [node]) (s.obtained ++ [resp]))
      else
        fanOut r rest (FanOut.mk (s.resps ++ [resp]) s.errors
          (s.issued ++ [node]) (s.obtained ++ [resp]))

/-- What a call of `Multicast` returns and did: `bodyRead` tells whether
`r.Body` was read, `issued` lists the endpoints a request was sent to, and
`obtained` the responses received, in the state `Multicast` leaves them. -/
structure MulticastRun where
  result : Outcome GoError (List Response)
  bodyRead : Bool
  issued : List Node
  obtained : List Response
  deriving DecidableEq, Repr

/-- Lines 166-208: the fan-out, the wait for all workers, and the drain of
the channel, which returns the first error it holds. -/
def gather (r : Request) (order : List Node) (bodyRead : Bool) : MulticastRun :=
  let s := fanOut r order (FanOut.mk [] [] [] [])
  match s.errors with
  | e :: _ => MulticastRun.mk (Outcome.err e) bodyRead s.issued s.obtained
  | [] => MulticastRun.mk (Outcome.ok s.resps) bodyRead s.issued s.obtained

/-- `Multicast`. `registry` is what `etcache.Get(etcdKey, false, true)`
returns (the nodes under the key, or an error). `order` is the order in which
the goroutines started for the endpoints get to record their outcome: a
permutation of the endpoints, chosen by the scheduler. -/
def Multicast (r : Request) (registry : Except GoError (List Node)) (order : List Node) :
    MulticastRun :=
  match registry with
  | Except.error e => MulticastRun.mk (Outcome.err e) false [] []
  | Except.ok endpoints =>
    if endpoints.length = 0 then MulticastRun.mk (Outcome.err GoError.noHosts) false [] []
    else if r.ContentLength ≠ 0 then
      match r.Body with
      | Except.error e => MulticastRun.mk (Outcome.err e) true [] []
      | Except.ok _ => gather r order true
    else gather r order false

/-! ## MulticastHttp (`route.go`, lines 211-283) -/

/-- The type `Return`. -/
inductive Return
  | ReturnOne
  | ReturnAll
  deriving DecidableEq, Repr

/-- The `http.ResponseWriter`, as what the handler has done to it: `body` is
the bytes `io.Copy` wrote, `failed` the call `http.Error(w, err.Error(), 500)`
when one was made (it is the last thing a path does to `w`). Writes to `w`
succeed. -/
structure ResponseWriter where
  body : GoString
  failed : Option GoError
  deriving DecidableEq, Repr

/-- Library `io.Copy(w, src)`: reads `src` until it returns an error, writes
what was read, and returns nil at `io.EOF` and the error otherwise. `none`
when `fuel` reads were not enough. -/
def ioCopy : Nat → ResponseWriter → ReadCloser →
    Option (Option GoError × ResponseWriter × ReadCloser)
  | 0, _, _ => none
  | fuel + 1, w, src =>
    let res := src.Read
    let w1 := if res.1.1.length > 0 then ResponseWriter.mk (w.body ++ res.1.1) w.failed else w
    match res.1.2 with
    | some e => some (if e = GoError.EOF then none else some e, w1, res.2)
    | none => ioCopy fuel w1 res.2

/-- The response with its body replaced. -/
def Response.withBody (resp : Response) (body : ReadCloser) : Response :=
  Response.mk resp.StatusCode resp.Status resp.Boundary body

/-- The deferred function of `MulticastHttp`: `r.Body.Close()` for every
response, the errors dropped. -/
def closeBodies (resps : List Response) : List Response :=
  resps.map (fun resp => resp.withBody resp.Body.Close.2)

/-- What a call of `MulticastHttp` did: `finished` holds the writer, the
responses in their final state and the error logged, if any; `multipart`
stands for the merge of multipart bodies (lines 259-281), which is not
elaborated; `fault` is a panic. -/
inductive HttpRun
  | finished (w : ResponseWriter) (resps : List Response) (logged : Option GoError)
  | multipart (resps : List Response)
  | fault
  deriving DecidableEq, Repr

/-- The loop of the plain-text case (lines 249-257): each body is copied to
`w` and closed; a failing copy is reported and ends the handler. `done` holds
the responses already handled. The deferred closes come last. -/
def copyBodies (fuel : Nat) :
    List Response → ResponseWriter → List Response → Option HttpRun
  | [], w, done => some (HttpRun.finished w (closeBodies done) none)
  | resp :: rest, w, done =>
    match ioCopy fuel w resp.Body with
    | none => none
    | some (some e, w1, body1) =>
      some (HttpRun.finished (ResponseWriter.mk w1.body (some e))
        (closeBodies (done ++ resp.withBody body1 :: rest)) (some e))
    | some (none, w1, body1) =>
      copyBodies fuel rest w1 (done ++ [resp.withBody body1.Close.2])

/-- Lines 230-282 of `MulticastHttp`: what is done with the responses
`Multicast` returned. -/
def writeResponses (fuel : Nat) (w : ResponseWriter) (resps : List Response) (ret : Return) :
    Option HttpRun :=
  match ret with
  | Return.ReturnOne =>
    match resps with
    | [] => some HttpRun.fault
    | first :: rest =>
      match ioCopy fuel w first.Body with
      | none => none
      | some (some e, w1, body1) =>
        some (HttpRun.finished (ResponseWriter.mk w1.body (some e))
          (closeBodies (first.withBody body1 :: rest)) (some e))
      | some (none, w1, body1) =>
        some (HttpRun.finished w1 (closeBodies (first.withBody body1 :: rest)) none)
  | Return.ReturnAll =>
    match resps with
    | [] => some HttpRun.fault
    | first :: rest =>
      if first.Boundary = "" then copyBodies fuel (first :: rest) w []
      else some (HttpRun.multipart (first :: rest))

/-- `MulticastHttp`: `fuel` bounds the reads of each `io.Copy`. -/
def MulticastHttp (fuel : Nat) (w : ResponseWriter) (r : Request)
    (registry : Except GoError (List Node)) (order : List Node) (ret : Return) :
    Option HttpRun :=
  match (Multicast r registry order).result with
  | Outcome.err e => some (HttpRun.finished (ResponseWriter.mk w.body (some e)) [] (some e))
  | Outcome.fault => some HttpRun.fault
  | Outcome.ok resps => writeResponses fuel w resps ret

/-! ## Vocabulary of the multicast statements -/

/-- The endpoint's request succeeded with status 200. -/
def succeeded (node : Node) : Prop :=
  match node.attempt with
  | Attempt.answered resp => resp.StatusCode = 200
  | _ => False

instance (node : Node) : Decidable (succeeded node) := by
  unfold succeeded
  split <;> infer_instance

/-- The response of an endpoint whose request succeeded with status 200. -/
def goodResponse (node : Node) : Option Response :=
  match node.attempt with
  | Attempt.answered resp => if resp.StatusCode ≠ 200 then none else some resp
  | _ => none

/-- The error a worker records for an endpoint whose request did not succeed
with status 200. -/
def recordedError (r : Request) (node : Node) : Option GoError :=
  match node.attempt with
  | Attempt.notBuilt e => some e
  | Attempt.notSent e => some e
  | Attempt.answered resp => if resp.StatusCode ≠ 200 then some (failedRequest r resp) else none

/-- The request body was buffered: there is none to read, or reading it
succeeded. -/
def buffered (r : Request) : Prop :=
  r.ContentLength = 0 ∨ ∃ body, r.Body = Except.ok body

/-- The bodies of the responses, in order. -/
def bodies (resps : List Response) : List ReadCloser := resps.map (fun resp => resp.Body)

/-! ## Sample requests and endpoints -/

/-- A `GET` without body. -/
def sampleRequest : Request := Request.mk "GET" "/file/a" 0 (Except.ok [])

/-- A response with status 200, no `Boundary` header and the body given by
the script. -/
def okResponse (name : Nat) (script : List ReadResult) : Response :=
  Response.mk 200 "200 OK" "" (ReadCloser.mk name script none 0)

/-- Responses with status 200 and the bodies "a", "b" and "c". -/
def respA : Response := okResponse 0 [(bytes "a", none)]

/-- The second sample response; its body comes together with `io.EOF`. -/
def respB : Response := okResponse 1 [(bytes "b", some GoError.EOF)]

/-- The third sample response. -/
def respC : Response := okResponse 2 [(bytes "c", none)]

/-- Three endpoints that answer 200 with the bodies "a", "b" and "c". -/
def threeNodes : List Node :=
  [Node.mk "http://h1" (Attempt.answered respA),
   Node.mk "http://h2" (Attempt.answered respB),
   Node.mk "http://h3" (Attempt.answered respC)]

/-- The same endpoints in the order third, first, second. -/
def threeNodesShuffled : List Node :=
  [Node.mk "http://h3" (Attempt.answered respC),
   Node.mk "http://h1" (Attempt.answered respA),
   Node.mk "http://h2" (Attempt.answered respB)]

/-- Two endpoints that answer 200 with the bodies of `closeFails`: "a", with
a `Close` that returns an error, and "b". -/
def closeFailNodes : List Node :=
  [Node.mk "http://h1" (Attempt.answered (Response.mk 200 "200 OK" ""
     (ReadCloser.mk 0 [(bytes "a", none)] (some (GoError.other "close failed")) 0))),
   Node.mk "http://h2" (Attempt.answered (Response.mk 200 "200 OK" ""
     (ReadCloser.mk 1 [(bytes "b", some GoError.EOF)] none 0)))]

/-- A `POST` whose body cannot be read. -/
def brokenRequest : Request :=
  Request.mk "POST" "/file/a" 12 (Except.error (GoError.other "unexpected EOF"))

/-- Three endpoints of which the second answers with status 500. -/
def oneFailingNode : List Node :=
  [Node.mk "http://h1" (Attempt.answered (okResponse 0 [(bytes "a", none)])),
   Node.mk "http://h2" (Attempt.answered
     (Response.mk 500 "500 Internal Server Error" "" (ReadCloser.mk 1 [] none 0))),
   Node.mk "http://h3" (Attempt.answered (okResponse 2 [(bytes "c", none)]))]

end Route
namespace PfsRoute

open Route (Outcome)

/-! ## The router (`pfs/route/router.go`) -/

/-- A network address, a Go `string`; only equality of addresses matters. -/
abbrev Address := String

/-- A Go `map[int]bool`, as the list of its entries. -/
abbrev ShardMap := List (Int × Bool)

/-- The test `_, ok := shards[shard]`: whether the map has the key, whatever
the value stored under it. -/
def hasShard (shards : ShardMap) (shard : Int) : Bool := (shards.lookup shard).isSome

/-- The errors a `router` method returns. The two `fmt.Errorf` values are
made by the router itself; an error of the addresser or of the dialer is
passed on as it came and is a different error value, whatever its text. -/
inductive RouterError
  | noMasterFound (shard : Int)
  | noSlaveOrMasterFound (shard : Int)
  | addresser (msg : String)
  | dialer (msg : String)
  deriving DecidableEq, Repr

/-- The text of an error (`Error()`). -/
def RouterError.message : RouterError → String
  | RouterError.noMasterFound shard => "no master found for " ++ toString shard
  | RouterError.noSlaveOrMasterFound shard => "no slave or master found for " ++ toString shard
  | RouterError.addresser msg => msg
  | RouterError.dialer msg => msg

/-- The interface `Addresser` (`pfs/route/route.go`, lines 19-23), as the
answers it gives during one router call; each read may fail. -/
structure Addresser where
  GetMasterShards : Address → Except String ShardMap
  GetSlaveShards : Address → Except String ShardMap
  GetAllAddresses : Except String (List Address)

/-- A `*grpc.ClientConn`, known by the address it was dialed for and a
serial number of the dialer. -/
structure ClientConn where
  target : Address
  serial : Nat
  deriving DecidableEq, Repr

/-- The struct `router`; `dialer` is the method `Dial` of `grpcutil.Dialer`. -/
structure router where
  addresser : Addresser
  dialer : Address → Except String ClientConn
  localAddress : Address

/-- The outcome of a router method together with the addresses `Dial` was
called with, in call order. -/
structure Run (α : Type) where
  result : Outcome RouterError α
  dialed : List Address

/-- The loop of `router.getAddresses` over the addresses; `found` is
`foundAddresses` so far. -/
def getAddressesLoop (shard : Int) (testFunc : Address → Except String ShardMap) :
    List Address → List Address → Outcome RouterError (List Address)
  | [], found => Outcome.ok found
  | address :: rest, found =>
    match testFunc address with
    | Except.error e => Outcome.err (RouterError.addresser e)
    | Except.ok shards =>
      if hasShard shards shard then getAddressesLoop shard testFunc rest (found ++ [address])
      else getAddressesLoop shard testFunc rest found

/-- `router.getAddresses`: the addresses whose map, read with `testFunc`,
has the shard. -/
def router.getAddresses (r : router) (shard : Int)
    (testFunc : Address → Except String ShardMap) : Outcome RouterError (List Address) :=
  match r.addresser.GetAllAddresses with
  | Except.error e => Outcome.err (RouterError.addresser e)
  | Except.ok addresses => getAddressesLoop shard testFunc addresses []

/-- The width of the Go type `int`: 64 bits, as on the amd64 machines the
cluster runs on. -/
def intSize : Nat := 64

/-- The conversion `int(u)` of a `uint32`: the value modulo `2 ^ intSize`,
read as a signed number. -/
def toInt (u : Nat) : Int :=
  let v := (u % 2 ^ 32) % 2 ^ intSize
  if v < 2 ^ (intSize - 1) then Int.ofNat v else Int.ofNat v - 2 ^ intSize

/-- The index `int(rand.Uint32()) % len(addresses)`; `%` of Go truncates
towards zero. -/
def pickIndex (u : Nat) (len : Nat) : Int := Int.tmod (toInt u) (Int.ofNat len)

/-- `router.getAddress`; `u` is the value `rand.Uint32()` returns when it is
called. Indexing outside the slice panics. -/
def router.getAddress (r : router) (shard : Int)
    (testFunc : Address → Except String ShardMap) (u : Nat) : Outcome RouterError Address :=
  match r.getAddresses shard testFunc with
  | Outcome.err e => Outcome.err e
  | Outcome.fault => Outcome.fault
  | Outcome.ok addresses =>
    if addresses.length = 0 then Outcome.ok ""
    else
      let i := pickIndex u addresses.length
      if i < 0 then Outcome.fault
      else
        match addresses.get? i.toNat with
        | none => Outcome.fault
        | some address => Outcome.ok address

/-- The call `r.dialer.Dial(address)`, recorded. -/
def router.Dial (r : router) (address : Address) : Run ClientConn :=
  match r.dialer address with
  | Except.ok conn => Run.mk (Outcome.ok conn) [address]
  | Except.error e => Run.mk (Outcome.err (RouterError.dialer e)) [address]

/-- `router.GetMasterClientConn`; `u` is the random value of `getAddress`. -/
def router.GetMasterClientConn (r : router) (shard : Int) (u : Nat) : Run ClientConn :=
  match r.getAddress shard r.addresser.GetMasterShards u with
  | Outcome.err e => Run.mk (Outcome.err e) []
  | Outcome.fault => Run.mk Outcome.fault []
  | Outcome.ok address =>
    if address = "" then Run.mk (Outcome.err (RouterError.noMasterFound shard)) []
    else r.Dial address

/-- `router.GetMasterOrSlaveClientConn`; `u1` is the random value of the
slave lookup and `u2` that of the master lookup, when they draw one. -/
def router.GetMasterOrSlaveClientConn (r : router) (shard : Int) (u1 u2 : Nat) :
    Run ClientConn :=
  match r.getAddress shard r.addresser.GetSlaveShards u1 with
  | Outcome.err e => Run.mk (Outcome.err e) []
  | Outcome.fault => Run.mk Outcome.fault []
  | Outcome.ok address =>
    if address = "" then
      match r.getAddress shard r.addresser.GetMasterShards u2 with
      | Outcome.err e => Run.mk (Outcome.err e) []
      | Outcome.fault => Run.mk Outcome.fault []
      | Outcome.ok address2 =>
        if address2 = "" then Run.mk (Outcome.err (RouterError.noSlaveOrMasterFound shard)) []
        else r.Dial address2
    else r.Dial address

/-! ## Vocabulary of the router statements -/

/-- An addresser whose reads all succeed: it knows the addresses `addrs`,
and `master a` and `slave a` are the maps it returns for an address. -/
def staticAddresser (addrs : List Address) (master slave : Address → ShardMap) : Addresser :=
  Addresser.mk (fun a => Except.ok (master a)) (fun a => Except.ok (slave a)) (Except.ok addrs)

/-- A dialer that always succeeds. -/
def plainDialer (a : Address) : Except String ClientConn := Except.ok (ClientConn.mk a 0)

/-- The addresses among `addrs` whose map under `shards` has the shard. -/
def candidates (addrs : List Address) (shards : Address → ShardMap) (shard : Int) :
    List Address :=
  addrs.filter (fun a => hasShard (shards a) shard)

/-! ## Sample clusters -/

/-- The master maps of a cluster where `"m"` is the master of shard 2. -/
def sampleMasters (a : Address) : ShardMap := if a = "m" then [(2, true)] else []

/-- The slave maps of a cluster where `"s1"` and `"s2"` are slaves of shard 2. -/
def sampleSlaves (a : Address) : ShardMap :=
  if a = "s1" ∨ a = "s2" then [(2, true)] else []

/-- A router of the cluster `"m"`, `"s1"`, `"s2"`, running on `"m"`. -/
def sampleRouter : router :=
  router.mk (staticAddresser ["m", "s1", "s2"] sampleMasters sampleSlaves) plainDialer "m"

/-- The maps of a registry in which the empty string holds shard 2. -/
def blankHolds (a : Address) : ShardMap := if a = "" then [(2, true)] else []

/-- A router whose registry lists the empty string as the master of shard 2. -/
def blankMasterRouter : router :=
  router.mk (staticAddresser [""] blankHolds (fun _ => [])) plainDialer "local"

/-- A router whose registry lists `"m"` as the master of shard 2 and the
empty string as its only slave. -/
def blankSlaveRouter : router :=
  router.mk (staticAddresser ["", "m"] sampleMasters blankHolds) plainDialer "local"

end PfsRoute


namespace PfsRoute

open Route (Outcome)

/-! ## The router: connections to several addresses (`router.go`, lines 65-79 and 110-129) -/

/-- The loop of `router.GetAllSlaveClientConns` over the found addresses:
`result` is the slice built so far, `dialed` the addresses `Dial` was called
with so far. A failing `Dial` ends the call with its error. -/
def dialEach (r : router) :
    List Address → List ClientConn → List Address → Run (List ClientConn)
  | [], result, dialed => Run.mk (Outcome.ok result) dialed
  | address :: rest, result, dialed =>
    match r.dialer address with
    | Except.error e => Run.mk (Outcome.err (RouterError.dialer e)) (dialed ++ [address])
    | Except.ok conn => dialEach r rest (result ++ [conn]) (dialed ++ [address])

/-- `router.GetAllSlaveClientConns`. -/
def router.GetAllSlaveClientConns (r : router) (shard : Int) : Run (List ClientConn) :=
  match r.getAddresses shard r.addresser.GetSlaveShards with
  | Outcome.err e => Run.mk (Outcome.err e) []
  | Outcome.fault => Run.mk Outcome.fault []
  | Outcome.ok addresses => dialEach r addresses [] []

/-- The loop of `router.GetAllClientConns` over the addresses. `clientConns`
is the slice made before the loop, whose entries start as nil (`none`), `j` is
the running index; `clientConns[j] = clientConn` panics when `j` is not below
the length of the slice. -/
def fillConns (r : router) :
    List Address → List (Option ClientConn) → Nat → List Address →
      Run (List (Option ClientConn))
  | [], clientConns, _, dialed => Run.mk (Outcome.ok clientConns) dialed
  | address :: rest, clientConns, j, dialed =>
    if address ≠ r.localAddress then
      match r.dialer address with
      | Except.error e => Run.mk (Outcome.err (RouterError.dialer e)) (dialed ++ [address])
      | Except.ok clientConn =>
        if j < clientConns.length then
          fillConns r rest (clientConns.set j (some clientConn)) (j + 1) (dialed ++ [address])
        else Run.mk Outcome.fault (dialed ++ [address])
    else fillConns r rest clientConns j dialed

/-- `router.GetAllClientConns`. `make([]*grpc.ClientConn, len(addresses)-1)`
panics when the length asked for is negative, that is when there is no
address at all. -/
def router.GetAllClientConns (r : router) : Run (List (Option ClientConn)) :=
  match r.addresser.GetAllAddresses with
  | Except.error e => Run.mk (Outcome.err (RouterError.addresser e)) []
  | Except.ok addresses =>
    if (Int.ofNat addresses.length) - 1 < 0 then Run.mk Outcome.fault []
    else
      fillConns r addresses (List.replicate (addresses.length - 1) none) 0 []

/-! ## Vocabulary of the replica selection -/

/-- The number of values `u` of `rand.Uint32()`, among the `2 ^ 32` there
are, for which `router.getAddress` computes the index `i` into a slice of
`len` candidates. -/
def draws (len : Nat) (i : Int) : Nat :=
  Nat.count (fun u => pickIndex u len = i) (2 ^ 32)

/-! ## More sample clusters -/

/-- A router over the addresses `addrs` (nobody holds any shard) running on
`localAddress`, with a dialer that always succeeds. -/
def plainRouter (addrs : List Address) (localAddress : Address) : router :=
  router.mk (staticAddresser addrs (fun _ => []) (fun _ => [])) plainDialer localAddress

end PfsRoute
namespace Route

/-! ## Lemmas on the library functions -/

theorem valFrom_cons (n : Nat) (c : UInt8) (cs : GoString) :
    valFrom n (c :: cs) = valFrom (n * 10 + (c.toNat - 48)) cs := rfl

theorem valFrom_snoc (n : Nat) (ds : GoString) (c : UInt8) :
    valFrom n (ds ++ [c]) = valFrom n ds * 10 + (c.toNat - 48) := by
  simp [valFrom, List.foldl_append]

theorem le_valFrom (ds : GoString) : ∀ n, n ≤ valFrom n ds := by
  induction ds with
  | nil => intro n; exact Nat.le_refl n
  | cons c cs ih =>
    intro n
    rw [valFrom_cons]
    have h := ih (n * 10 + (c.toNat - 48))
    omega

theorem parseLoop_digits (ds : GoString) :
    ∀ n, (∀ c ∈ ds, isDigit c) → valFrom n ds < 2 ^ 64 →
      parseLoop ds n = (valFrom n ds, none) := by
  induction ds with
  | nil => intro n _ _; rfl
  | cons c cs ih =>
    intro n hd hv
    have hc : 48 ≤ c.toNat ∧ c.toNat ≤ 57 := hd c (List.mem_cons_self c cs)
    rw [valFrom_cons] at hv
    have hle := le_valFrom cs (n * 10 + (c.toNat - 48))
    have hrec := ih (n * 10 + (c.toNat - 48))
      (fun x hx => hd x (List.mem_cons_of_mem c hx)) hv
    have h10 : n * 10 % 2 ^ 64 = n * 10 := Nat.mod_eq_of_lt (by omega)
    have h1 : (n * 10 + (c.toNat - 48)) % 2 ^ 64 = n * 10 + (c.toNat - 48) :=
      Nat.mod_eq_of_lt (by omega)
    have hcut : ¬ n ≥ cutoff := by
      simp only [cutoff, maxUint64]
      omega
    have hd10 : ¬ c.toNat - 48 ≥ 10 := by omega
    have hov : ¬ (n * 10 + (c.toNat - 48) < n * 10 ∨ n * 10 + (c.toNat - 48) > maxUint64) := by
      simp only [maxUint64]
      omega
    simp only [parseLoop, hc, and_self, if_true, h10, h1, hcut, hd10, hov, if_false]
    rw [valFrom_cons]
    exact hrec

theorem ParseUint_decimal (s : GoString) (hs : isDecimal s) (hv : valFrom 0 s < 2 ^ 64) :
    ParseUint s = (valFrom 0 s, none) := by
  unfold ParseUint
  rw [if_neg hs.1]
  exact parseLoop_digits s 0 hs.2 hv

theorem digit_toNat (d : Nat) (h : d < 10) : (UInt8.ofNat (48 + d)).toNat = 48 + d := by
  simp [UInt8.toNat, UInt8.ofNat, Fin.ofNat]
  omega

theorem formatLoop_spec (fuel : Nat) :
    ∀ n acc, 0 < fuel → n < 10 ^ fuel →
      ∃ ds, formatLoop fuel n acc = ds ++ acc ∧ isDecimal ds ∧ valFrom 0 ds = n := by
  induction fuel with
  | zero => intro n acc h _; exact absurd h (Nat.lt_irrefl 0)
  | succ fuel ih =>
    intro n acc _ hn
    have hdig := digit_toNat (n % 10) (Nat.mod_lt n (by decide))
    by_cases hq : n / 10 = 0
    · refine ⟨[UInt8.ofNat (48 + n % 10)], ?_, ⟨by simp, ?_⟩, ?_⟩
      · simp [formatLoop, hq]
      · intro c hc
        rw [List.mem_singleton] at hc
        subst hc
        unfold isDigit
        omega
      · simp only [valFrom, List.foldl, hdig]
        omega
    · have hfuel : 0 < fuel := by
        rcases Nat.eq_zero_or_pos fuel with h0 | h0
        · subst h0
          simp at hn
          omega
        · exact h0
      have hlt : n / 10 < 10 ^ fuel := by
        rw [Nat.div_lt_iff_lt_mul (by decide)]
        rw [pow_succ] at hn
        exact hn
      obtain ⟨ds, heq, hdec, hval⟩ := ih (n / 10) (UInt8.ofNat (48 + n % 10) :: acc) hfuel hlt
      refine ⟨ds ++ [UInt8.ofNat (48 + n % 10)], ?_, ⟨by simp, ?_⟩, ?_⟩
      · simp [formatLoop, hq, heq]
      · intro c hc
        rw [List.mem_append, List.mem_singleton] at hc
        rcases hc with hc | hc
        · exact hdec.2 c hc
        · subst hc
          unfold isDigit
          omega
      · rw [valFrom_snoc, hval, hdig]
        omega

theorem decimal_spec (n : Nat) (hn : n < 2 ^ 64) :
    isDecimal (decimal n) ∧ valFrom 0 (decimal n) = n := by
  obtain ⟨ds, heq, hdec, hval⟩ := formatLoop_spec 20 n [] (by decide)
    (Nat.lt_trans hn (by norm_num))
  rw [List.append_nil] at heq
  unfold decimal
  rw [heq]
  exact ⟨hdec, hval⟩

theorem ParseUint_decimal_roundtrip (n : Nat) (hn : n < 2 ^ 64) :
    ParseUint (decimal n) = (n, none) := by
  obtain ⟨hdec, hval⟩ := decimal_spec n hn
  have h := ParseUint_decimal (decimal n) hdec (by rw [hval]; exact hn)
  rw [hval] at h
  exact h

theorem Split_no_sep (sep : UInt8) (s : GoString) (h : sep ∉ s) : Split sep s = [s] := by
  induction s with
  | nil => rfl
  | cons c cs ih =>
    have hc : c ≠ sep := fun e => h (by rw [e]; exact List.mem_cons_self sep cs)
    have hcs : sep ∉ cs := fun e => h (List.mem_cons_of_mem c e)
    simp [Split, hc, ih hcs]

theorem Split_append_sep (sep : UInt8) (a b : GoString) (h : sep ∉ a) :
    Split sep (a ++ sep :: b) = a :: Split sep b := by
  induction a with
  | nil => simp [Split]
  | cons c cs ih =>
    have hc : c ≠ sep := fun e => h (by rw [e]; exact List.mem_cons_self sep cs)
    have hcs : sep ∉ cs := fun e => h (List.mem_cons_of_mem c e)
    simp [Split, hc, ih hcs]

theorem Split_ne_nil (sep : UInt8) (s : GoString) : Split sep s ≠ [] := by
  induction s with
  | nil => simp [Split]
  | cons c cs ih =>
    unfold Split
    split
    · simp
    · split
      · simp
      · simp

theorem dash_not_mem_of_isDecimal (s : GoString) (h : isDecimal s) : (45 : UInt8) ∉ s := by
  intro hm
  have := h.2 45 hm
  revert this
  decide

theorem ParseShard_shardString (i N : Nat) (hi : i < 2 ^ 64) (hN : N < 2 ^ 64) :
    ParseShard (shardString i N) = Outcome.ok (i, N) := by
  have hsplit : Split 45 (shardString i N) = [decimal i, decimal N] := by
    have hb : bytes "-" = [45] := by decide
    unfold shardString
    rw [hb, List.append_assoc, List.singleton_append,
      Split_append_sep 45 _ _ (dash_not_mem_of_isDecimal _ (decimal_spec i hi).1),
      Split_no_sep 45 _ (dash_not_mem_of_isDecimal _ (decimal_spec N hN).1)]
  simp [ParseShard, hsplit, ParseUint_decimal_roundtrip i hi, ParseUint_decimal_roundtrip N hN]

end Route

namespace Route

/-! ## Lemmas on the streaming concatenator -/

theorem flatten_contents_cons (r : ReadCloser) (rs : List ReadCloser) :
    ((r :: rs).map contents).flatten = contents r ++ (rs.map contents).flatten := by
  simp

theorem steps_cons (r : ReadCloser) (rs : List ReadCloser) :
    steps (r :: rs) = r.script.length + steps rs := by
  simp [steps]

/-- One `Read` over well-behaved sub-streams either ends the stream, all of
them being empty, or delivers a first piece of their contents and leaves
well-behaved sub-streams with fewer steps to go. -/
theorem readLoop_wellBehaved (rs : List ReadCloser) :
    ∀ rel, (∀ r ∈ rs, WellBehaved r) →
      ((readLoop rel rs).1 = ([], some GoError.EOF) ∧ (rs.map contents).flatten = []) ∨
      ((readLoop rel rs).1.2 = none ∧
        (∀ r ∈ (readLoop rel rs).2.readers, WellBehaved r) ∧
        (readLoop rel rs).1.1 ++ ((readLoop rel rs).2.readers.map contents).flatten
          = (rs.map contents).flatten ∧
        steps (readLoop rel rs).2.readers < steps rs) := by
  induction rs with
  | nil => intro rel _; left; exact ⟨rfl, rfl⟩
  | cons r rest ih =>
    intro rel h
    have hr : WellBehaved r := h r (List.mem_cons_self r rest)
    have hrest : ∀ x ∈ rest, WellBehaved x := fun x hx => h x (List.mem_cons_of_mem r hx)
    obtain ⟨name, script, closeErr, closed⟩ := r
    obtain ⟨hscript, hclose⟩ := hr
    simp only at hscript hclose
    subst hclose
    cases script with
    | nil =>
      have hstep : readLoop rel (ReadCloser.mk name [] none closed :: rest)
          = readLoop (rel ++ [ReadCloser.mk name [] none (closed + 1)]) rest := by
        simp [readLoop, ReadCloser.Read, ReadCloser.Close]
      rw [hstep, flatten_contents_cons, steps_cons]
      rcases ih (rel ++ [ReadCloser.mk name [] none (closed + 1)]) hrest with h1 | h1
      · left
        exact ⟨h1.1, by simp [contents, h1.2]⟩
      · right
        refine ⟨h1.1, h1.2.1, ?_, ?_⟩
        · simpa [contents] using h1.2.2.1
        · simpa using h1.2.2.2
    | cons s script2 =>
      obtain ⟨d, e⟩ := s
      obtain ⟨he, hclean⟩ := hscript
      simp only at he
      by_cases hd : d = []
      · rcases he with he | ⟨he, hnil⟩
        · subst he
          right
          have hstep : readLoop rel (ReadCloser.mk name ((d, none) :: script2) none closed :: rest)
              = ((d, none), multiReadCloser.mk (ReadCloser.mk name script2 none closed :: rest) rel) := by
            simp [readLoop, ReadCloser.Read]
          rw [hstep]
          refine ⟨rfl, ?_, ?_, ?_⟩
          · intro x hx
            rcases List.mem_cons.mp hx with hx | hx
            · subst hx; exact ⟨hclean, rfl⟩
            · exact hrest x hx
          · simp [contents]
          · simp [steps]
        · subst he; subst hnil; subst hd
          have hstep : readLoop rel
                (ReadCloser.mk name [([], some GoError.EOF)] none closed :: rest)
              = readLoop (rel ++ [ReadCloser.mk name [] none (closed + 1)]) rest := by
            simp [readLoop, ReadCloser.Read, ReadCloser.Close]
          rw [hstep, flatten_contents_cons, steps_cons]
          rcases ih (rel ++ [ReadCloser.mk name [] none (closed + 1)]) hrest with h1 | h1
          · left
            exact ⟨h1.1, by simp [contents, h1.2]⟩
          · right
            refine ⟨h1.1, h1.2.1, ?_, ?_⟩
            · simpa [contents] using h1.2.2.1
            · have := h1.2.2.2
              simp only [List.length_singleton]
              omega
      · right
        have hlen : d.length > 0 := List.length_pos.mpr hd
        have hstep : readLoop rel (ReadCloser.mk name ((d, e) :: script2) none closed :: rest)
            = ((d, none), multiReadCloser.mk (ReadCloser.mk name script2 none closed :: rest) rel) := by
          rcases he with he | ⟨he, _⟩ <;> subst he <;> simp [readLoop, ReadCloser.Read, hlen]
        rw [hstep]
        refine ⟨rfl, ?_, ?_, ?_⟩
        · intro x hx
          rcases List.mem_cons.mp hx with hx | hx
          · subst hx; exact ⟨hclean, rfl⟩
          · exact hrest x hx
        · simp [contents]
        · simp [steps]

/-- Draining well-behaved sub-streams ends with `io.EOF` after delivering
their contents in order, as soon as the fuel exceeds their steps. -/
theorem drain_wellBehaved (fuel : Nat) :
    ∀ (rs rel : List ReadCloser) (acc : GoString), (∀ r ∈ rs, WellBehaved r) → steps rs < fuel →
      ∃ final, drain fuel (multiReadCloser.mk rs rel) acc
        = some (acc ++ (rs.map contents).flatten, GoError.EOF, final) := by
  induction fuel with
  | zero => intro rs rel acc _ h; exact absurd h (Nat.not_lt_zero _)
  | succ fuel ih =>
    intro rs rel acc h hf
    rcases readLoop_wellBehaved rs rel h with h1 | h1
    · refine ⟨(readLoop rel rs).2, ?_⟩
      have h2 : (readLoop rel rs).1.2 = some GoError.EOF := by rw [h1.1]
      have h3 : (readLoop rel rs).1.1 = [] := by rw [h1.1]
      simp [drain, multiReadCloser.Read, h2, h3, h1.2]
    · obtain ⟨he, hwb, hcat, hsteps⟩ := h1
      obtain ⟨final, hfinal⟩ := ih (readLoop rel rs).2.readers (readLoop rel rs).2.released
        (acc ++ (readLoop rel rs).1.1) hwb (by omega)
      refine ⟨final, ?_⟩
      simp only [drain, multiReadCloser.Read, he]
      rw [hfinal, List.append_assoc, hcat]

end Route

namespace Route

theorem Read_closeErr (r : ReadCloser) : r.Read.2.closeErr = r.closeErr := by
  unfold ReadCloser.Read
  split <;> rfl

theorem Read_closed (r : ReadCloser) : r.Read.2.closed = r.closed := by
  unfold ReadCloser.Read
  split <;> rfl

theorem Read_name (r : ReadCloser) : r.Read.2.name = r.name := by
  unfold ReadCloser.Read
  split <;> rfl

theorem release_name (r : ReadCloser) : (release r).name = r.name := by
  simp [release, ReadCloser.Close, Read_name]

theorem release_closed (r : ReadCloser) : (release r).closed = r.closed + 1 := by
  simp [release, ReadCloser.Close, Read_closed]

theorem release_closeErr (r : ReadCloser) : (release r).closeErr = r.closeErr := by
  simp [release, ReadCloser.Close, Read_closeErr]

/-- The first sub-stream answers with bytes or with an error other than
`io.EOF`: `Read` returns at once, `io.EOF` next to bytes turned into nil. -/
theorem readLoop_head (r : ReadCloser) (rest rel : List ReadCloser)
    (h : r.Read.1.1 ≠ [] ∨ r.Read.1.2 ≠ some GoError.EOF) :
    readLoop rel (r :: rest)
      = ((r.Read.1.1, if r.Read.1.2 = some GoError.EOF then none else r.Read.1.2),
          multiReadCloser.mk (r.Read.2 :: rest) rel) := by
  have hc : r.Read.1.1.length > 0 ∨ r.Read.1.2 ≠ some GoError.EOF := by
    rcases h with h | h
    · exact Or.inl (List.length_pos.mpr h)
    · exact Or.inr h
  simp only [readLoop, hc, if_true]

/-- The first sub-stream is at end-of-file and closes without error: `Read`
drops it and goes on with the next one. -/
theorem readLoop_drop (r : ReadCloser) (rest rel : List ReadCloser)
    (h : atEOF r) (hc : r.closeErr = none) :
    readLoop rel (r :: rest) = readLoop (rel ++ [release r]) rest := by
  have h1 : r.Read.1.1 = [] := by rw [h]
  have h2 : r.Read.1.2 = some GoError.EOF := by rw [h]
  have h3 : r.Read.2.Close.1 = none := by
    simp [ReadCloser.Close, Read_closeErr, hc]
  simp [readLoop, h1, h2, h3, release]

/-- Sub-streams at end-of-file whose `Close` succeeds are skipped inside one
`Read` call. -/
theorem readLoop_skip (pre : List ReadCloser) :
    ∀ (rel rs : List ReadCloser), (∀ x ∈ pre, atEOF x ∧ x.closeErr = none) →
      readLoop rel (pre ++ rs) = readLoop (rel ++ pre.map release) rs := by
  induction pre with
  | nil => intro rel rs _; simp
  | cons x pre ih =>
    intro rel rs h
    have hx := h x (List.mem_cons_self x pre)
    rw [List.cons_append, readLoop_drop x (pre ++ rs) rel hx.1 hx.2,
      ih (rel ++ [release x]) rs (fun y hy => h y (List.mem_cons_of_mem x hy))]
    simp

/-- When no `Close` returns `io.EOF`, a `Read` that returns `io.EOF` has
found every sub-stream at end-of-file and has dropped them all. -/
theorem readLoop_EOF (rs : List ReadCloser) :
    ∀ rel, (∀ r ∈ rs, r.closeErr ≠ some GoError.EOF) →
      (readLoop rel rs).1.2 = some GoError.EOF →
      (readLoop rel rs).1.1 = [] ∧
      (readLoop rel rs).2 = multiReadCloser.mk [] (rel ++ rs.map release) ∧
      ∀ r ∈ rs, atEOF r := by
  induction rs with
  | nil => intro rel _ _; simp [readLoop]
  | cons r rest ih =>
    intro rel hc he
    have hcr := hc r (List.mem_cons_self r rest)
    by_cases hhead : r.Read.1.1 ≠ [] ∨ r.Read.1.2 ≠ some GoError.EOF
    · rw [readLoop_head r rest rel hhead] at he
      simp only at he
      split at he
      · exact absurd he (by simp)
      · rename_i hne
        exact absurd he hne
    · have h1 : r.Read.1.1 = [] := by
        by_contra hn
        exact hhead (Or.inl hn)
      have h2 : r.Read.1.2 = some GoError.EOF := by
        by_contra hn
        exact hhead (Or.inr hn)
      have hat : atEOF r := by
        unfold atEOF
        exact Prod.ext h1 h2
      by_cases hclose : r.closeErr = none
      · rw [readLoop_drop r rest rel hat hclose] at he ⊢
        obtain ⟨i1, i2, i3⟩ := ih (rel ++ [release r])
          (fun x hx => hc x (List.mem_cons_of_mem r hx)) he
        refine ⟨i1, ?_, ?_⟩
        · rw [i2]; simp
        · intro x hx
          rcases List.mem_cons.mp hx with hx | hx
          · subst hx; exact hat
          · exact i3 x hx
      · have h3 : r.Read.2.Close.1 = r.closeErr := by
          simp [ReadCloser.Close, Read_closeErr]
        have hres : (readLoop rel (r :: rest)).1.2 = r.closeErr := by
          simp [readLoop, h1, h2, h3, hclose]
        rw [hres] at he
        exact absurd he hcr

theorem readLoop_tracked (names : List Nat) (rs : List ReadCloser) :
    ∀ rel, Tracked names (multiReadCloser.mk rs rel) →
      Tracked names (readLoop rel rs).2 ∧
      ((readLoop rel rs).1.2 = some GoError.EOF → (readLoop rel rs).2.readers = []) := by
  induction rs with
  | nil =>
    intro rel h
    exact ⟨h, fun _ => rfl⟩
  | cons r rest ih =>
    intro rel h
    obtain ⟨hn, hrel, hzero, hcl⟩ := h
    simp only [multiReadCloser.all] at hn
    have hcr : r.closeErr = none := hcl r (List.mem_cons_self r rest)
    have hzr : r.closed = 0 := hzero r (List.mem_cons_self r rest)
    by_cases hhead : r.Read.1.1 ≠ [] ∨ r.Read.1.2 ≠ some GoError.EOF
    · rw [readLoop_head r rest rel hhead]
      refine ⟨⟨?_, hrel, ?_, ?_⟩, ?_⟩
      · simpa [multiReadCloser.all, Read_name] using hn
      · intro x hx
        rcases List.mem_cons.mp hx with hx | hx
        · rw [hx, Read_closed]; exact hzr
        · exact hzero x (List.mem_cons_of_mem r hx)
      · intro x hx
        rcases List.mem_cons.mp hx with hx | hx
        · rw [hx, Read_closeErr]; exact hcr
        · exact hcl x (List.mem_cons_of_mem r hx)
      · intro he
        simp only at he
        split at he
        · exact absurd he (by simp)
        · rename_i hne
          exact absurd he hne
    · have h1 : r.Read.1.1 = [] := by
        by_contra hn2
        exact hhead (Or.inl hn2)
      have h2 : r.Read.1.2 = some GoError.EOF := by
        by_contra hn2
        exact hhead (Or.inr hn2)
      have hat : atEOF r := by
        unfold atEOF
        exact Prod.ext h1 h2
      rw [readLoop_drop r rest rel hat hcr]
      apply ih
      refine ⟨?_, ?_, ?_, ?_⟩
      · simpa [multiReadCloser.all, release_name] using hn
      · intro x hx
        rcases List.mem_append.mp hx with hx | hx
        · exact hrel x hx
        · rw [List.mem_singleton] at hx
          rw [hx, release_closed, hzr]
      · exact fun x hx => hzero x (List.mem_cons_of_mem r hx)
      · exact fun x hx => hcl x (List.mem_cons_of_mem r hx)

theorem closeLoop_tracked (names : List Nat) (rs : List ReadCloser) :
    ∀ rel, Tracked names (multiReadCloser.mk rs rel) →
      (closeLoop rel rs).1 = none ∧ Tracked names (closeLoop rel rs).2 ∧
      (closeLoop rel rs).2.readers = [] := by
  induction rs with
  | nil =>
    intro rel h
    exact ⟨rfl, h, rfl⟩
  | cons r rest ih =>
    intro rel h
    obtain ⟨hn, hrel, hzero, hcl⟩ := h
    simp only [multiReadCloser.all] at hn
    have hcr : r.closeErr = none := hcl r (List.mem_cons_self r rest)
    have hzr : r.closed = 0 := hzero r (List.mem_cons_self r rest)
    have hstep : closeLoop rel (r :: rest) = closeLoop (rel ++ [r.Close.2]) rest := by
      simp [closeLoop, ReadCloser.Close, hcr]
    rw [hstep]
    apply ih
    refine ⟨?_, ?_, ?_, ?_⟩
    · simpa [multiReadCloser.all, ReadCloser.Close] using hn
    · intro x hx
      rcases List.mem_append.mp hx with hx | hx
      · exact hrel x hx
      · rw [List.mem_singleton] at hx
        rw [hx]
        simp [ReadCloser.Close, hzr]
    · exact fun x hx => hzero x (List.mem_cons_of_mem r hx)
    · exact fun x hx => hcl x (List.mem_cons_of_mem r hx)

theorem readN_tracked (names : List Nat) (k : Nat) :
    ∀ mr, Tracked names mr → Tracked names (readN k mr) := by
  induction k with
  | zero => intro mr h; exact h
  | succ k ih =>
    intro mr h
    exact ih mr.Read.2 (readLoop_tracked names mr.readers mr.released h).1

theorem MultiReadCloser_tracked (rs : List ReadCloser)
    (hclose : ∀ r ∈ rs, r.closeErr = none) (hfresh : ∀ r ∈ rs, r.closed = 0) :
    Tracked (rs.map ReadCloser.name) (MultiReadCloser rs) := by
  refine ⟨by simp [MultiReadCloser, multiReadCloser.all], ?_, hfresh, hclose⟩
  intro r hr
  simp [MultiReadCloser] at hr

end Route

namespace Route

/-! ## Lemmas on the multicast -/

theorem succeeded_iff_recordedError (r : Request) (node : Node) :
    succeeded node ↔ recordedError r node = none := by
  unfold succeeded recordedError
  cases node.attempt <;> simp

theorem succeeded_iff_goodResponse (node : Node) :
    succeeded node ↔ ∃ resp, goodResponse node = some resp := by
  unfold succeeded goodResponse
  cases node.attempt <;> simp

/-- The workers leave in `resps` the responses of the endpoints that
succeeded and in `errors` the errors of the others, both in the order of the
schedule. -/
theorem fanOut_resps_errors (r : Request) (order : List Node) :
    ∀ s, (fanOut r order s).resps = s.resps ++ order.filterMap goodResponse ∧
      (fanOut r order s).errors = s.errors ++ order.filterMap (recordedError r) := by
  induction order with
  | nil => intro s; simp [fanOut]
  | cons node rest ih =>
    intro s
    unfold fanOut
    cases hatt : node.attempt with
    | notBuilt e =>
      simp only
      obtain ⟨h1, h2⟩ := ih (FanOut.mk s.resps (s.errors ++ [e]) s.issued s.obtained)
      rw [h1, h2]
      simp [List.filterMap_cons, goodResponse, recordedError, hatt]
    | notSent e =>
      simp only
      obtain ⟨h1, h2⟩ := ih (FanOut.mk s.resps (s.errors ++ [e]) (s.issued ++ [node]) s.obtained)
      rw [h1, h2]
      simp [List.filterMap_cons, goodResponse, recordedError, hatt]
    | answered resp =>
      simp only
      by_cases hst : resp.StatusCode ≠ 200
      · rw [if_pos hst]
        obtain ⟨h1, h2⟩ := ih (FanOut.mk s.resps (s.errors ++ [failedRequest r resp])
          (s.issued ++ [node]) (s.obtained ++ [resp]))
        rw [h1, h2]
        simp [List.filterMap_cons, goodResponse, recordedError, hatt, hst]
      · rw [if_neg hst]
        obtain ⟨h1, h2⟩ := ih (FanOut.mk (s.resps ++ [resp]) s.errors
          (s.issued ++ [node]) (s.obtained ++ [resp]))
        rw [h1, h2]
        simp [List.filterMap_cons, goodResponse, recordedError, hatt, hst]

theorem gather_result (r : Request) (order : List Node) (b : Bool) :
    (gather r order b).result
      = match order.filterMap (recordedError r) with
        | e :: _ => Outcome.err e
        | [] => Outcome.ok (order.filterMap goodResponse) := by
  obtain ⟨h1, h2⟩ := fanOut_resps_errors r order (FanOut.mk [] [] [] [])
  simp only [List.nil_append] at h1 h2
  unfold gather
  simp only
  rw [h2]
  cases order.filterMap (recordedError r) with
  | nil => simp only; rw [h1]
  | cons e es => rfl

/-- With endpoints under the key and the request body buffered, `Multicast`
gets to the fan-out. -/
theorem Multicast_gathers (r : Request) (endpoints order : List Node)
    (hne : endpoints ≠ []) (hbuf : buffered r) :
    ∃ b, Multicast r (Except.ok endpoints) order = gather r order b := by
  have hlen : endpoints.length ≠ 0 := fun h => hne (List.length_eq_zero.mp h)
  unfold Multicast
  simp only [hlen, if_false]
  by_cases hc : r.ContentLength ≠ 0
  · rw [if_pos hc]
    rcases hbuf with h0 | ⟨body, hbody⟩
    · exact absurd h0 hc
    · rw [hbody]
      exact ⟨true, rfl⟩
  · rw [if_neg hc]
    exact ⟨false, rfl⟩

theorem filterMap_goodResponse_length (nodes : List Node) (h : ∀ n ∈ nodes, succeeded n) :
    (nodes.filterMap goodResponse).length = nodes.length := by
  induction nodes with
  | nil => rfl
  | cons n rest ih =>
    obtain ⟨resp, hresp⟩ := (succeeded_iff_goodResponse n).mp (h n (List.mem_cons_self n rest))
    rw [List.filterMap_cons, hresp]
    simp [ih (fun x hx => h x (List.mem_cons_of_mem n hx))]

/-- A body that ends cleanly is copied whole and without error, within
`script.length + 1` reads. -/
theorem ioCopy_endsCleanly (script : List ReadResult) :
    ∀ (fuel : Nat) (w : ResponseWriter) (name : Nat) (closeErr : Option GoError) (closed : Nat),
      endsCleanly script → script.length < fuel →
      ioCopy fuel w (ReadCloser.mk name script closeErr closed)
        = some (none, ResponseWriter.mk (w.body ++ (script.map Prod.fst).flatten) w.failed,
            ReadCloser.mk name [] closeErr closed) := by
  induction script with
  | nil =>
    intro fuel w name closeErr closed _ hf
    obtain ⟨fuel, rfl⟩ : ∃ k, fuel = k + 1 := ⟨fuel - 1, by simp at hf; omega⟩
    simp [ioCopy, ReadCloser.Read]
  | cons s rest ih =>
    intro fuel w name closeErr closed hc hf
    obtain ⟨fuel, rfl⟩ : ∃ k, fuel = k + 1 := ⟨fuel - 1, by simp at hf; omega⟩
    obtain ⟨d, e⟩ := s
    obtain ⟨he, hrest⟩ := hc
    simp only at he
    have hw : (if d.length > 0 then ResponseWriter.mk (w.body ++ d) w.failed else w)
        = ResponseWriter.mk (w.body ++ d) w.failed := by
      by_cases hd : d.length > 0
      · rw [if_pos hd]
      · rw [if_neg hd]
        have : d = [] := List.length_eq_zero.mp (by omega)
        subst this
        simp
    rcases he with he | ⟨he, hnil⟩
    · subst he
      have hf2 : rest.length < fuel := by simp at hf; omega
      simp only [ioCopy, ReadCloser.Read, hw]
      rw [ih fuel (ResponseWriter.mk (w.body ++ d) w.failed) name closeErr closed hrest hf2]
      simp
    · subst he; subst hnil
      simp [ioCopy, ReadCloser.Read, hw]

/-- Bodies that end cleanly are copied to the writer one after the other. -/
theorem copyBodies_endsCleanly (fuel : Nat) (resps : List Response) :
    ∀ (w : ResponseWriter) (done : List Response),
      (∀ resp ∈ resps, endsCleanly resp.Body.script ∧ resp.Body.script.length < fuel) →
      ∃ final, copyBodies fuel resps w done
        = some (HttpRun.finished
            (ResponseWriter.mk (w.body ++ ((bodies resps).map contents).flatten) w.failed)
            final none) := by
  induction resps with
  | nil => intro w done _; exact ⟨closeBodies done, by simp [copyBodies, bodies]⟩
  | cons resp rest ih =>
    intro w done h
    obtain ⟨hc, hf⟩ := h resp (List.mem_cons_self resp rest)
    obtain ⟨code, status, boundary, body⟩ := resp
    obtain ⟨name, script, closeErr, closed⟩ := body
    simp only at hc hf
    obtain ⟨final, hfinal⟩ := ih
      (ResponseWriter.mk (w.body ++ (script.map Prod.fst).flatten) w.failed)
      (done ++ [(Response.mk code status boundary (ReadCloser.mk name script closeErr closed)
        ).withBody (ReadCloser.mk name [] closeErr closed).Close.2])
      (fun x hx => h x (List.mem_cons_of_mem _ hx))
    refine ⟨final, ?_⟩
    unfold copyBodies
    rw [ioCopy_endsCleanly script fuel w name closeErr closed hc hf]
    simp only
    rw [hfinal]
    simp [bodies, contents]

theorem script_length_le_steps (rs : List ReadCloser) (r : ReadCloser) (h : r ∈ rs) :
    r.script.length ≤ steps rs := by
  induction rs with
  | nil => exact absurd h (List.not_mem_nil r)
  | cons x rest ih =>
    rw [steps_cons]
    rcases List.mem_cons.mp h with h | h
    · subst h; omega
    · have := ih h
      omega

end Route

namespace Route

/-! ## Shard descriptors: the settled properties -/

/-- C1: for every resource key `k` and every descriptor `"i-N"` written from
unsigned 64-bit integers `i` and `N` with `N ≥ 1`, `Match(k, "i-N")` returns
no error, and the boolean it returns is true if and only if
`HashResource(k) % N = i`. -/
theorem Match_descriptor_iff (k : GoString) (i N : Nat)
    (hi : i < 2 ^ 64) (hN : N < 2 ^ 64) (h1 : 1 ≤ N) :
    ∃ b : Bool, Match k (shardString i N) = Outcome.ok b ∧
      (b = true ↔ HashResource k % N = i) := by
  refine ⟨decide (HashResource k % N = i), ?_, by simp⟩
  have h0 : N ≠ 0 := by omega
  simp [Match, ParseShard_shardString i N hi hN, h0]

theorem Match_descriptor_iff_witness :
    (0 : Nat) < 2 ^ 64 ∧ (8 : Nat) < 2 ^ 64 ∧ 1 ≤ 8 ∧
      ∃ b : Bool, Match (bytes "Wikipedia") (shardString 0 8) = Outcome.ok b ∧
        (b = true ↔ HashResource (bytes "Wikipedia") % 8 = 0) :=
  ⟨by decide, by decide, by decide,
    Match_descriptor_iff (bytes "Wikipedia") 0 8 (by decide) (by decide) (by decide)⟩

/-- C2: `ParseShard` undoes the descriptor serialisation of `Route`: for
every pair of unsigned 64-bit integers `(i, N)`, `ParseShard` applied to
`decimal(i) + "-" + decimal(N)` returns `(i, N)` and no error. -/
theorem ParseShard_roundtrip (i N : Nat) (hi : i < 2 ^ 64) (hN : N < 2 ^ 64) :
    ParseShard (shardString i N) = Outcome.ok (i, N) :=
  ParseShard_shardString i N hi hN

theorem ParseShard_roundtrip_witness :
    (3 : Nat) < 2 ^ 64 ∧ (8 : Nat) < 2 ^ 64 ∧ shardString 3 8 = bytes "3-8" ∧
      ParseShard (shardString 3 8) = Outcome.ok (3, 8) :=
  ⟨by decide, by decide, by decide, ParseShard_roundtrip 3 8 (by decide) (by decide)⟩

/-- C3 (the code departs from the claim): a descriptor without `"-"` that is
a decimal number, such as `"38"` or `"0"`, makes `ParseShard` panic at
`s_m[1]` instead of returning a parse error; descriptors with a non-numeric
part do get the parse error. -/
theorem ParseShard_missing_separator_faults :
    ParseShard (bytes "38") = Outcome.fault ∧
    ParseShard (bytes "0") = Outcome.fault ∧
    ParseShard (bytes "x8") = Outcome.err GoError.invalidDigits ∧
    ParseShard (bytes "3-x") = Outcome.err GoError.invalidDigits := by
  decide

/-- C4: for every resource key `k` and every shard count `N ≥ 1`, the bucket
`Route` computes is `HashResource(k) % N`, it lies in `[0, N)`, and equal keys
and equal counts give equal buckets. -/
theorem routeBucket_in_range (k : GoString) (N : Nat) (h1 : 1 ≤ N) :
    ∃ b : Nat, routeBucket k N = Outcome.ok b ∧ b = HashResource k % N ∧ 0 ≤ b ∧ b < N ∧
      ∀ k2 N2, k2 = k → N2 = N → routeBucket k2 N2 = Outcome.ok b := by
  have h0 : N ≠ 0 := by omega
  have hb : routeBucket k N = Outcome.ok (HashResource k % N) := by
    simp [routeBucket, h0]
  refine ⟨HashResource k % N, hb, rfl, Nat.zero_le _, Nat.mod_lt _ (by omega), ?_⟩
  intro k2 N2 hk hN
  rw [hk, hN]
  exact hb

theorem routeBucket_in_range_witness :
    1 ≤ 8 ∧ ∃ b : Nat, routeBucket (bytes "/pfs/data") 8 = Outcome.ok b ∧
      b = HashResource (bytes "/pfs/data") % 8 ∧ 0 ≤ b ∧ b < 8 ∧
      ∀ k2 N2, k2 = bytes "/pfs/data" → N2 = 8 → routeBucket k2 N2 = Outcome.ok b :=
  ⟨by decide, routeBucket_in_range (bytes "/pfs/data") 8 (by decide)⟩

end Route

namespace Route

/-! ## The streaming concatenator: the settled properties -/

/-- C5, as stated, fails: the sub-streams of `closeReturnsEOF` deliver their
bytes and then end-of-file without any read error, and hold "x"; yet the
`Close` of the first one returns `io.EOF`, `Read` passes it on, and reading
until `io.EOF` yields no byte. With `closeFails`, whose first `Close` returns
another error, the reading stops at that error after "a" of "ab". -/
theorem drain_misses_bytes_when_Close_fails :
    (∀ r ∈ closeReturnsEOF, endsCleanly r.script) ∧
    (closeReturnsEOF.map contents).flatten = bytes "x" ∧
    (drain 2 (MultiReadCloser closeReturnsEOF) []).map (fun x => (x.1, x.2.1))
      = some ([], GoError.EOF) ∧
    (∀ r ∈ closeFails, endsCleanly r.script) ∧
    (closeFails.map contents).flatten = bytes "ab" ∧
    (drain 3 (MultiReadCloser closeFails) []).map (fun x => (x.1, x.2.1))
      = some (bytes "a", GoError.other "close failed") := by
  decide

/-- C5, amended: for every finite sequence of sub-streams that each deliver
their bytes, in chunks of any size, and then end-of-file without other
errors, and whose `Close` returns nil, calling `Read` on
`MultiReadCloser(sub-streams...)` until it returns `io.EOF` yields exactly the
concatenation of the sub-streams' contents in the given order; the loop ends
within `steps rs + 1` calls. -/
theorem drain_MultiReadCloser (rs : List ReadCloser) (fuel : Nat)
    (hread : ∀ r ∈ rs, endsCleanly r.script) (hclose : ∀ r ∈ rs, r.closeErr = none)
    (hf : steps rs < fuel) :
    ∃ final, drain fuel (MultiReadCloser rs) []
      = some ((rs.map contents).flatten, GoError.EOF, final) := by
  obtain ⟨final, hfinal⟩ := drain_wellBehaved fuel rs [] []
    (fun r hr => ⟨hread r hr, hclose r hr⟩) hf
  exact ⟨final, by simpa [MultiReadCloser] using hfinal⟩

theorem drain_MultiReadCloser_witness :
    (∀ r ∈ threeStreams, endsCleanly r.script) ∧ (∀ r ∈ threeStreams, r.closeErr = none) ∧
      steps threeStreams < 4 ∧
      (threeStreams.map contents).flatten = bytes "abc" ∧
      ∃ final, drain 4 (MultiReadCloser threeStreams) []
        = some ((threeStreams.map contents).flatten, GoError.EOF, final) :=
  ⟨by decide, by decide, by decide, by decide,
    drain_MultiReadCloser threeStreams 4 (by decide) (by decide) (by decide)⟩

/-- C6, as stated, fails: when the `Close` of a drained sub-stream returns
`io.EOF`, `Read` returns `io.EOF` although a later sub-stream still holds
bytes and stays in the slice. -/
theorem Read_EOF_before_exhaustion :
    (MultiReadCloser closeReturnsEOF).Read.1 = ([], some GoError.EOF) ∧
    ¬ (∀ r ∈ closeReturnsEOF, atEOF r) ∧
    (MultiReadCloser closeReturnsEOF).Read.2.readers.map contents = [[], bytes "x"] := by
  decide

/-- C6, amended: provided no sub-stream's `Close` returns `io.EOF`, a `Read`
that returns `io.EOF` has found every sub-stream at end-of-file and has
dropped them all; and sub-streams at end-of-file whose `Close` succeeds (an
empty one in the middle, say) are skipped inside one `Read` call, which goes
on to deliver the next sub-stream's bytes with a nil error. -/
theorem Read_EOF_only_when_exhausted (mr : multiReadCloser)
    (pre : List ReadCloser) (r : ReadCloser) (rest rel : List ReadCloser) :
    ((∀ x ∈ mr.readers, x.closeErr ≠ some GoError.EOF) → mr.Read.1.2 = some GoError.EOF →
      mr.Read.1.1 = [] ∧ (∀ x ∈ mr.readers, atEOF x) ∧
      mr.Read.2 = multiReadCloser.mk [] (mr.released ++ mr.readers.map release)) ∧
    ((∀ x ∈ pre, atEOF x ∧ x.closeErr = none) → r.Read.1.1 ≠ [] →
      (r.Read.1.2 = none ∨ r.Read.1.2 = some GoError.EOF) →
      (multiReadCloser.mk (pre ++ r :: rest) rel).Read
        = ((r.Read.1.1, none),
            multiReadCloser.mk (r.Read.2 :: rest) (rel ++ pre.map release))) := by
  constructor
  · intro hc he
    obtain ⟨h1, h2, h3⟩ := readLoop_EOF mr.readers mr.released hc he
    exact ⟨h1, h3, h2⟩
  · intro hpre hd he
    unfold multiReadCloser.Read
    simp only
    rw [readLoop_skip pre rel (r :: rest) hpre, readLoop_head r rest _ (Or.inl hd)]
    rcases he with he | he <;> simp [he]

theorem Read_EOF_only_when_exhausted_witness :
    ((readN 3 (MultiReadCloser threeStreams)).Read.1 = ([], some GoError.EOF) ∧
      (readN 3 (MultiReadCloser threeStreams)).Read.2.readers = []) ∧
    (readN 2 (MultiReadCloser threeStreams)).readers.map contents = [[], [], bytes "c"] ∧
    (readN 2 (MultiReadCloser threeStreams)).Read.1 = (bytes "c", none) := by
  have h := Read_EOF_only_when_exhausted (readN 3 (MultiReadCloser threeStreams))
    [ReadCloser.mk 0 [] none 0, ReadCloser.mk 1 [] none 0]
    (ReadCloser.mk 2 [(bytes "c", some GoError.EOF)] none 0) [] []
  have h1 := h.1 (by decide) (by decide)
  have h2 := h.2 (by decide) (by decide) (by decide)
  have hstate : readN 2 (MultiReadCloser threeStreams)
      = multiReadCloser.mk ([ReadCloser.mk 0 [] none 0, ReadCloser.mk 1 [] none 0] ++
          ReadCloser.mk 2 [(bytes "c", some GoError.EOF)] none 0 :: []) [] := by decide
  refine ⟨⟨Prod.ext h1.1 (by decide), by rw [h1.2.2]⟩, by decide, ?_⟩
  rw [hstate, h2]
  decide

/-- C7: for sub-streams whose `Close` succeeds and which were not closed
before, after any number `k` of `Read` calls: if the next `Read` returns
`io.EOF`, every sub-stream passed to `MultiReadCloser` has been closed
exactly once; and a `Close` at that point returns nil and leaves every
sub-stream closed exactly once, those already closed by `Read` included. -/
theorem each_closed_once (rs : List ReadCloser) (k : Nat)
    (hclose : ∀ r ∈ rs, r.closeErr = none) (hfresh : ∀ r ∈ rs, r.closed = 0) :
    ((readN k (MultiReadCloser rs)).Read.1.2 = some GoError.EOF →
      (readN k (MultiReadCloser rs)).Read.2.readers = [] ∧
      (readN k (MultiReadCloser rs)).Read.2.released.map ReadCloser.name
        = rs.map ReadCloser.name ∧
      ∀ r ∈ (readN k (MultiReadCloser rs)).Read.2.released, r.closed = 1) ∧
    ((readN k (MultiReadCloser rs)).Close.1 = none ∧
      (readN k (MultiReadCloser rs)).Close.2.readers = [] ∧
      (readN k (MultiReadCloser rs)).Close.2.released.map ReadCloser.name
        = rs.map ReadCloser.name ∧
      ∀ r ∈ (readN k (MultiReadCloser rs)).Close.2.released, r.closed = 1) := by
  have ht := readN_tracked (rs.map ReadCloser.name) k (MultiReadCloser rs)
    (MultiReadCloser_tracked rs hclose hfresh)
  constructor
  · intro he
    obtain ⟨⟨hn, hrel, _, _⟩, hnil⟩ := readLoop_tracked (rs.map ReadCloser.name)
      (readN k (MultiReadCloser rs)).readers (readN k (MultiReadCloser rs)).released ht
    have hr := hnil he
    refine ⟨hr, ?_, hrel⟩
    simp only [multiReadCloser.all] at hn
    rw [hr, List.append_nil] at hn
    exact hn
  · obtain ⟨hnone, ⟨hn, hrel, _, _⟩, hr⟩ := closeLoop_tracked (rs.map ReadCloser.name)
      (readN k (MultiReadCloser rs)).readers (readN k (MultiReadCloser rs)).released ht
    refine ⟨hnone, hr, ?_, hrel⟩
    simp only [multiReadCloser.all] at hn
    rw [hr, List.append_nil] at hn
    exact hn

theorem each_closed_once_witness :
    (∀ r ∈ threeStreams, r.closeErr = none) ∧ (∀ r ∈ threeStreams, r.closed = 0) ∧
    (readN 3 (MultiReadCloser threeStreams)).Read.1.2 = some GoError.EOF ∧
    (readN 3 (MultiReadCloser threeStreams)).Read.2.released.map ReadCloser.closed = [1, 1, 1] ∧
    (readN 1 (MultiReadCloser threeStreams)).released.map ReadCloser.closed = [] ∧
    (readN 1 (MultiReadCloser threeStreams)).Close.2.released.map ReadCloser.closed = [1, 1, 1] ∧
    (((readN 3 (MultiReadCloser threeStreams)).Read.1.2 = some GoError.EOF →
      (readN 3 (MultiReadCloser threeStreams)).Read.2.readers = [] ∧
      (readN 3 (MultiReadCloser threeStreams)).Read.2.released.map ReadCloser.name
        = threeStreams.map ReadCloser.name ∧
      ∀ r ∈ (readN 3 (MultiReadCloser threeStreams)).Read.2.released, r.closed = 1) ∧
    ((readN 3 (MultiReadCloser threeStreams)).Close.1 = none ∧
      (readN 3 (MultiReadCloser threeStreams)).Close.2.readers = [] ∧
      (readN 3 (MultiReadCloser threeStreams)).Close.2.released.map ReadCloser.name
        = threeStreams.map ReadCloser.name ∧
      ∀ r ∈ (readN 3 (MultiReadCloser threeStreams)).Close.2.released, r.closed = 1)) :=
  ⟨by decide, by decide, by decide, by decide, by decide, by decide,
    each_closed_once threeStreams 3 (by decide) (by decide)⟩

/-- C8: when the sub-stream being read (the first one, or the first one left
after sub-streams at end-of-file were skipped in this call) returns a non-nil
error other than `io.EOF`, `multiReadCloser.Read` returns that error with the
bytes the sub-stream reported, keeps that sub-stream at the head of the
slice, and leaves every later sub-stream untouched. -/
theorem Read_returns_substream_error (pre : List ReadCloser) (r : ReadCloser)
    (rest rel : List ReadCloser) (e : GoError)
    (hpre : ∀ x ∈ pre, atEOF x ∧ x.closeErr = none)
    (he : r.Read.1.2 = some e) (hne : e ≠ GoError.EOF) :
    (multiReadCloser.mk (pre ++ r :: rest) rel).Read
      = ((r.Read.1.1, some e),
          multiReadCloser.mk (r.Read.2 :: rest) (rel ++ pre.map release)) := by
  have hhead : r.Read.1.1 ≠ [] ∨ r.Read.1.2 ≠ some GoError.EOF := by
    right
    rw [he]
    intro h
    exact hne (Option.some.inj h)
  unfold multiReadCloser.Read
  simp only
  rw [readLoop_skip pre rel (r :: rest) hpre, readLoop_head r rest _ hhead, he]
  have hneq : ¬ (some e = some GoError.EOF) := fun h => hne (Option.some.inj h)
  simp [hneq]

theorem Read_returns_substream_error_witness :
    (∀ x ∈ failingStreams.take 1, atEOF x ∧ x.closeErr = none) ∧
    GoError.other "connection reset" ≠ GoError.EOF ∧
    (MultiReadCloser failingStreams).Read.1 = (bytes "p", some (GoError.other "connection reset")) ∧
    (MultiReadCloser failingStreams).Read.2.readers.map contents = [bytes "r", bytes "q"] := by
  have h := Read_returns_substream_error [ReadCloser.mk 0 [] none 0]
    (ReadCloser.mk 1 [(bytes "p", some (GoError.other "connection reset")), (bytes "r", none)] none 0)
    [ReadCloser.mk 2 [(bytes "q", none)] none 0] [] (GoError.other "connection reset")
    (by decide) (by decide) (by decide)
  refine ⟨by decide, by decide, ?_, ?_⟩
  · exact congrArg Prod.fst h
  · exact congrArg (fun x => x.2.readers.map contents) h

end Route

namespace Route

/-! ## Multicast and the zero shard count: the settled properties -/

/-- C15: all-or-nothing fan-out. For every non-empty endpoint list, every
assignment of outcomes to the endpoints and every order in which the workers
finish: once the request body is buffered, `Multicast` returns a nil error if
and only if every endpoint's request succeeded with status 200; it then
returns exactly one response per endpoint, a permutation of the endpoints'
responses, so a non-empty result; and if some endpoint fails, `Multicast`
returns one of the recorded errors and no response. When the body cannot be
buffered no request is sent at all and `Multicast` returns an error. -/
theorem Multicast_all_or_nothing (r : Request) (endpoints order : List Node)
    (hne : endpoints ≠ []) (hperm : order.Perm endpoints) :
    (buffered r →
      ((∃ resps, (Multicast r (Except.ok endpoints) order).result = Outcome.ok resps) ↔
        ∀ n ∈ endpoints, succeeded n) ∧
      (∀ resps, (Multicast r (Except.ok endpoints) order).result = Outcome.ok resps →
        resps.Perm (endpoints.filterMap goodResponse) ∧
        resps.length = endpoints.length ∧ resps ≠ []) ∧
      ((∃ n ∈ endpoints, ¬ succeeded n) →
        ∃ n ∈ endpoints, ∃ e, recordedError r n = some e ∧
          (Multicast r (Except.ok endpoints) order).result = Outcome.err e)) ∧
    (¬ buffered r →
      (∃ e, (Multicast r (Except.ok endpoints) order).result = Outcome.err e) ∧
      (Multicast r (Except.ok endpoints) order).issued = []) := by
  constructor
  · intro hbuf
    obtain ⟨b, hb⟩ := Multicast_gathers r endpoints order hne hbuf
    have hres := gather_result r order b
    rw [← hb] at hres
    cases herrs : order.filterMap (recordedError r) with
    | nil =>
      rw [herrs] at hres
      simp only at hres
      have hall : ∀ n ∈ endpoints, succeeded n := by
        intro n hn
        rw [succeeded_iff_recordedError r n]
        have hmem : n ∈ order := hperm.mem_iff.mpr hn
        by_contra hsome
        obtain ⟨e, he⟩ := Option.ne_none_iff_exists'.mp hsome
        have : e ∈ order.filterMap (recordedError r) :=
          List.mem_filterMap.mpr ⟨n, hmem, he⟩
        rw [herrs] at this
        exact absurd this (List.not_mem_nil e)
      have hp : (order.filterMap goodResponse).Perm (endpoints.filterMap goodResponse) :=
        List.Perm.filterMap goodResponse hperm
      have hlen : (order.filterMap goodResponse).length = endpoints.length := by
        rw [hp.length_eq]
        exact filterMap_goodResponse_length endpoints hall
      refine ⟨⟨fun _ => hall, fun _ => ⟨_, hres⟩⟩, ?_, ?_⟩
      · intro resps hr
        rw [hres] at hr
        have heq : order.filterMap goodResponse = resps := Outcome.ok.inj hr
        rw [← heq]
        refine ⟨hp, hlen, ?_⟩
        intro hnil
        rw [hnil] at hlen
        exact hne (List.length_eq_zero.mp hlen.symm)
      · rintro ⟨n, hn, hfail⟩
        exact absurd (hall n hn) hfail
    | cons e es =>
      rw [herrs] at hres
      simp only at hres
      have hmem : e ∈ order.filterMap (recordedError r) := by
        rw [herrs]
        exact List.mem_cons_self e es
      obtain ⟨n, hn, hrec⟩ := List.mem_filterMap.mp hmem
      have hne2 : n ∈ endpoints := hperm.mem_iff.mp hn
      have hnot : ¬ ∀ x ∈ endpoints, succeeded x := by
        intro hall
        have := (succeeded_iff_recordedError r n).mp (hall n hne2)
        rw [this] at hrec
        exact absurd hrec (by simp)
      refine ⟨⟨?_, fun h => absurd h hnot⟩, ?_, fun _ => ⟨n, hne2, e, hrec, hres⟩⟩
      · rintro ⟨resps, hr⟩
        rw [hres] at hr
        exact absurd hr (by simp)
      · intro resps hr
        rw [hres] at hr
        exact absurd hr (by simp)
  · intro hnb
    have hlen : endpoints.length ≠ 0 := fun h => hne (List.length_eq_zero.mp h)
    have hc : r.ContentLength ≠ 0 := fun h => hnb (Or.inl h)
    unfold Multicast
    simp only [hlen, if_false, hc, ne_eq, not_false_eq_true, if_true]
    cases hbody : r.Body with
    | error e => exact ⟨⟨e, rfl⟩, rfl⟩
    | ok body => exact absurd (Or.inr ⟨body, hbody⟩) hnb

theorem Multicast_all_or_nothing_witness :
    threeNodes ≠ [] ∧ threeNodesShuffled.Perm threeNodes ∧ buffered sampleRequest ∧
    (Multicast sampleRequest (Except.ok threeNodes) threeNodesShuffled).result
      = Outcome.ok [respC, respA, respB] ∧
    (Multicast sampleRequest (Except.ok oneFailingNode) oneFailingNode.reverse).result
      = Outcome.err (GoError.other "Failed request (500 Internal Server Error) to /file/a.") ∧
    ¬ buffered brokenRequest ∧
    (((∃ resps, (Multicast sampleRequest (Except.ok threeNodes) threeNodesShuffled).result
          = Outcome.ok resps) ↔
        ∀ n ∈ threeNodes, succeeded n) ∧
      (∀ resps, (Multicast sampleRequest (Except.ok threeNodes) threeNodesShuffled).result
          = Outcome.ok resps →
        resps.Perm (threeNodes.filterMap goodResponse) ∧
        resps.length = threeNodes.length ∧ resps ≠ []) ∧
      ((∃ n ∈ threeNodes, ¬ succeeded n) →
        ∃ n ∈ threeNodes, ∃ e, recordedError sampleRequest n = some e ∧
          (Multicast sampleRequest (Except.ok threeNodes) threeNodesShuffled).result
            = Outcome.err e)) ∧
    ((∃ e, (Multicast brokenRequest (Except.ok threeNodes) threeNodesShuffled).result
        = Outcome.err e) ∧
      (Multicast brokenRequest (Except.ok threeNodes) threeNodesShuffled).issued = []) := by
  have hnb : ¬ buffered brokenRequest := by
    rintro (h | ⟨body, h⟩)
    · exact absurd h (by decide)
    · exact absurd h (by simp [brokenRequest])
  exact ⟨by decide, by decide, Or.inl rfl, by decide, by decide, hnb,
    (Multicast_all_or_nothing sampleRequest threeNodes threeNodesShuffled
      (by decide) (by decide)).1 (Or.inl rfl),
    (Multicast_all_or_nothing brokenRequest threeNodes threeNodesShuffled
      (by decide) (by decide)).2 hnb⟩

/-- C16: when the registry lists no endpoint under the key, `Multicast`
returns `ErrNoHosts` and no response, does not read the request body and
sends no request, whatever the request. -/
theorem Multicast_no_hosts (r : Request) (order : List Node) :
    (Multicast r (Except.ok []) order).result = Outcome.err GoError.noHosts ∧
    (Multicast r (Except.ok []) order).bodyRead = false ∧
    (Multicast r (Except.ok []) order).issued = [] ∧
    (Multicast r (Except.ok []) order).obtained = [] := by
  simp [Multicast]

/-- C17 (the code departs from the claim): with three endpoints of which the
second answers 500, `Multicast` returns the error of that endpoint and nil
responses, and none of the three bodies it received has been closed (their
close counts are 0); `MulticastHttp` reports the error and closes nothing
either, its deferred closes not being set up yet. -/
theorem Multicast_failure_leaves_bodies_open :
    (Multicast sampleRequest (Except.ok oneFailingNode) oneFailingNode).result
      = Outcome.err (GoError.other "Failed request (500 Internal Server Error) to /file/a.") ∧
    (Multicast sampleRequest (Except.ok oneFailingNode) oneFailingNode).obtained.map
        (fun resp => (resp.StatusCode, resp.Body.closed))
      = [(200, 0), (500, 0), (200, 0)] ∧
    MulticastHttp 2 (ResponseWriter.mk [] none) sampleRequest (Except.ok oneFailingNode)
        oneFailingNode Return.ReturnAll
      = some (HttpRun.finished
          (ResponseWriter.mk []
            (some (GoError.other "Failed request (500 Internal Server Error) to /file/a.")))
          []
          (some (GoError.other "Failed request (500 Internal Server Error) to /file/a."))) := by
  decide

/-- C18, as stated, fails: the two responses of `closeFailNodes` carry no
`Boundary` header and their bodies "a" and "b" read without error, but the
`Close` of the first body returns an error. `MulticastHttp` in `ReturnAll`
mode drops that error and writes "ab"; reading `MultiReadCloser` over the
same bodies stops at the `Close` error after "a" and never gets to
end-of-file. -/
theorem MulticastHttp_differs_when_Close_fails :
    (Multicast sampleRequest (Except.ok closeFailNodes) closeFailNodes).result
      = Outcome.ok (closeFailNodes.filterMap goodResponse) ∧
    bodies (closeFailNodes.filterMap goodResponse) = closeFails ∧
    (∀ first ∈ (closeFailNodes.filterMap goodResponse).head?, first.Boundary = "") ∧
    (∀ body ∈ closeFails, endsCleanly body.script) ∧
    (MulticastHttp 3 (ResponseWriter.mk [] none) sampleRequest (Except.ok closeFailNodes)
        closeFailNodes Return.ReturnAll).map
        (fun run => match run with
          | HttpRun.finished w _ logged => (w.body, w.failed, logged)
          | _ => ([], none, none))
      = some (bytes "ab", none, none) ∧
    (drain 3 (MultiReadCloser closeFails) []).map (fun x => (x.1, x.2.1))
      = some (bytes "a", GoError.other "close failed") := by
  decide

/-- C18, amended: for every non-empty list of collected responses whose
first response carries no `Boundary` header and whose bodies read without
error, `MulticastHttp` in `ReturnAll` mode writes, and reports no error, the
concatenation of all bodies in collection order; when, besides, the `Close`
of every body returns nil, these are the bytes that reading `MultiReadCloser`
over the same bodies in the same order to end-of-file yields. -/
theorem MulticastHttp_ReturnAll_plain (fuel : Nat) (w : ResponseWriter) (r : Request)
    (registry : Except GoError (List Node)) (order : List Node) (resps : List Response)
    (hres : (Multicast r registry order).result = Outcome.ok resps)
    (hne : resps ≠ [])
    (hplain : ∀ first ∈ resps.head?, first.Boundary = "")
    (hread : ∀ body ∈ bodies resps, endsCleanly body.script)
    (hfuel : steps (bodies resps) < fuel) :
    (∃ final, MulticastHttp fuel w r registry order Return.ReturnAll
      = some (HttpRun.finished
          (ResponseWriter.mk (w.body ++ ((bodies resps).map contents).flatten) w.failed)
          final none)) ∧
    ((∀ body ∈ bodies resps, body.closeErr = none) →
      ∃ state, drain fuel (MultiReadCloser (bodies resps)) []
        = some (((bodies resps).map contents).flatten, GoError.EOF, state)) := by
  constructor
  · have hall : ∀ resp ∈ resps,
        endsCleanly resp.Body.script ∧ resp.Body.script.length < fuel := by
      intro resp hresp
      have hmem : resp.Body ∈ bodies resps := List.mem_map.mpr ⟨resp, hresp, rfl⟩
      exact ⟨hread resp.Body hmem,
        Nat.lt_of_le_of_lt (script_length_le_steps (bodies resps) resp.Body hmem) hfuel⟩
    obtain ⟨final, hfinal⟩ := copyBodies_endsCleanly fuel resps w [] hall
    refine ⟨final, ?_⟩
    unfold MulticastHttp
    rw [hres]
    cases resps with
    | nil => exact absurd rfl hne
    | cons first rest =>
      have hb : first.Boundary = "" := hplain first (by simp)
      simp only [writeResponses, hb, if_true]
      exact hfinal
  · intro hclose
    exact drain_wellBehaved fuel (bodies resps) [] []
      (fun body hbody => ⟨hread body hbody, hclose body hbody⟩) hfuel

theorem MulticastHttp_ReturnAll_plain_witness :
    (Multicast sampleRequest (Except.ok threeNodes) threeNodes).result
      = Outcome.ok (threeNodes.filterMap goodResponse) ∧
    threeNodes.filterMap goodResponse ≠ [] ∧
    (∀ first ∈ (threeNodes.filterMap goodResponse).head?, first.Boundary = "") ∧
    (∀ body ∈ bodies (threeNodes.filterMap goodResponse), endsCleanly body.script) ∧
    steps (bodies (threeNodes.filterMap goodResponse)) < 4 ∧
    (∀ body ∈ bodies (threeNodes.filterMap goodResponse), body.closeErr = none) ∧
    ((bodies (threeNodes.filterMap goodResponse)).map contents).flatten = bytes "abc" ∧
    (∃ final, MulticastHttp 4 (ResponseWriter.mk [] none) sampleRequest (Except.ok threeNodes)
        threeNodes Return.ReturnAll
      = some (HttpRun.finished
          (ResponseWriter.mk ((ResponseWriter.mk [] none).body ++
            ((bodies (threeNodes.filterMap goodResponse)).map contents).flatten)
            (ResponseWriter.mk [] none).failed)
          final none)) ∧
    ∃ state, drain 4 (MultiReadCloser (bodies (threeNodes.filterMap goodResponse))) []
      = some (((bodies (threeNodes.filterMap goodResponse)).map contents).flatten,
          GoError.EOF, state) := by
  have h := MulticastHttp_ReturnAll_plain 4 (ResponseWriter.mk [] none) sampleRequest
    (Except.ok threeNodes) threeNodes (threeNodes.filterMap goodResponse)
    (by decide) (by decide) (by decide) (by decide) (by decide)
  exact ⟨by decide, by decide, by decide, by decide, by decide, by decide, by decide,
    h.1, h.2 (by decide)⟩

/-- C20 (the code departs from the claim): for every resource key and every
descriptor `"i-0"`, `i` an unsigned 64-bit integer, `ParseShard` succeeds
with the shard count 0 and `Match` panics on `% 0` instead of returning an
error. -/
theorem Match_zero_modulos_faults (k : GoString) (i : Nat) (hi : i < 2 ^ 64) :
    ParseShard (shardString i 0) = Outcome.ok (i, 0) ∧
    Match k (shardString i 0) = Outcome.fault := by
  have hp := ParseShard_shardString i 0 hi (by decide)
  exact ⟨hp, by simp [Match, hp]⟩

theorem Match_zero_modulos_faults_witness :
    (3 : Nat) < 2 ^ 64 ∧ shardString 3 0 = bytes "3-0" ∧
    ParseShard (shardString 3 0) = Outcome.ok (3, 0) ∧
    Match (bytes "/pfs/data") (shardString 3 0) = Outcome.fault :=
  ⟨by decide, by decide, Match_zero_modulos_faults (bytes "/pfs/data") 3 (by decide)⟩

end Route

namespace PfsRoute

open Route

/-! ## Lemmas on the router -/

theorem getAddressesLoop_ok (shard : Int) (testFunc : Address → Except String ShardMap)
    (shards : Address → ShardMap) (addrs : List Address) :
    ∀ found, (∀ a ∈ addrs, testFunc a = Except.ok (shards a)) →
      getAddressesLoop shard testFunc addrs found
        = Outcome.ok (found ++ candidates addrs shards shard) := by
  induction addrs with
  | nil => intro found _; simp [getAddressesLoop, candidates]
  | cons a rest ih =>
    intro found h
    have ha := h a (List.mem_cons_self a rest)
    have hrest : ∀ x ∈ rest, testFunc x = Except.ok (shards x) :=
      fun x hx => h x (List.mem_cons_of_mem a hx)
    unfold getAddressesLoop
    rw [ha]
    by_cases hs : hasShard (shards a) shard = true
    · simp only [hs, if_true]
      rw [ih (found ++ [a]) hrest]
      simp [candidates, List.filter_cons, hs]
    · simp only [hs]
      rw [ih found hrest]
      simp [candidates, List.filter_cons, hs]

theorem getAddresses_ok (r : router) (shard : Int) (testFunc : Address → Except String ShardMap)
    (addrs : List Address) (shards : Address → ShardMap)
    (hA : r.addresser.GetAllAddresses = Except.ok addrs)
    (hT : ∀ a ∈ addrs, testFunc a = Except.ok (shards a)) :
    r.getAddresses shard testFunc = Outcome.ok (candidates addrs shards shard) := by
  unfold router.getAddresses
  rw [hA]
  simp only
  rw [getAddressesLoop_ok shard testFunc shards addrs [] hT]
  simp

theorem pickIndex_eq (u len : Nat) : pickIndex u len = Int.ofNat ((u % 2 ^ 32) % len) := by
  have hv : (u % 2 ^ 32) % 2 ^ intSize = u % 2 ^ 32 := by
    apply Nat.mod_eq_of_lt
    simp only [intSize]
    omega
  have hlt : u % 2 ^ 32 < 2 ^ (intSize - 1) := by
    simp only [intSize]
    omega
  simp only [pickIndex, toInt, hv, hlt, if_true]
  rfl

/-- With no candidate `getAddress` returns the empty string and a nil error. -/
theorem getAddress_none (r : router) (shard : Int) (testFunc : Address → Except String ShardMap)
    (u : Nat) (addrs : List Address) (shards : Address → ShardMap)
    (hA : r.addresser.GetAllAddresses = Except.ok addrs)
    (hT : ∀ a ∈ addrs, testFunc a = Except.ok (shards a))
    (hc : candidates addrs shards shard = []) :
    r.getAddress shard testFunc u = Outcome.ok "" := by
  unfold router.getAddress
  rw [getAddresses_ok r shard testFunc addrs shards hA hT, hc]
  simp

/-- With candidates `getAddress` returns the one at position
`u % 2 ^ 32 % len`. -/
theorem getAddress_some (r : router) (shard : Int) (testFunc : Address → Except String ShardMap)
    (u : Nat) (addrs : List Address) (shards : Address → ShardMap)
    (hA : r.addresser.GetAllAddresses = Except.ok addrs)
    (hT : ∀ a ∈ addrs, testFunc a = Except.ok (shards a))
    (hc : candidates addrs shards shard ≠ []) :
    ∃ a, (candidates addrs shards shard).get?
          ((u % 2 ^ 32) % (candidates addrs shards shard).length) = some a ∧
      a ∈ candidates addrs shards shard ∧
      r.getAddress shard testFunc u = Outcome.ok a := by
  have hlen : 0 < (candidates addrs shards shard).length := List.length_pos.mpr hc
  have hidx : (u % 2 ^ 32) % (candidates addrs shards shard).length
      < (candidates addrs shards shard).length := Nat.mod_lt _ hlen
  refine ⟨(candidates addrs shards shard).get ⟨_, hidx⟩, ?_, List.get_mem _ _ _, ?_⟩
  · exact List.get?_eq_get hidx
  · unfold router.getAddress
    rw [getAddresses_ok r shard testFunc addrs shards hA hT]
    have h0 : (candidates addrs shards shard).length ≠ 0 := by omega
    simp only [h0, if_false, pickIndex_eq]
    have hneg : ¬ (Int.ofNat ((u % 2 ^ 32) % (candidates addrs shards shard).length) < 0) :=
      Int.not_lt.mpr (Int.ofNat_nonneg _)
    have hnat : (Int.ofNat ((u % 2 ^ 32) % (candidates addrs shards shard).length)).toNat
        = (u % 2 ^ 32) % (candidates addrs shards shard).length := rfl
    simp only [hneg, if_false]
    rw [hnat, List.get?_eq_get hidx]

theorem mem_candidates (addrs : List Address) (shards : Address → ShardMap) (shard : Int)
    (a : Address) :
    a ∈ candidates addrs shards shard ↔ a ∈ addrs ∧ hasShard (shards a) shard = true := by
  simp [candidates, List.mem_filter]

theorem candidates_eq_nil (addrs : List Address) (shards : Address → ShardMap) (shard : Int) :
    candidates addrs shards shard = [] ↔ ∀ a ∈ addrs, hasShard (shards a) shard = false := by
  simp [candidates, List.filter_eq_nil_iff]

theorem Dial_dialed (r : router) (a : Address) : (r.Dial a).dialed = [a] := by
  unfold router.Dial
  split <;> rfl

theorem Dial_result_ne (r : router) (a : Address) (shard : Int) :
    (r.Dial a).result ≠ Outcome.err (RouterError.noMasterFound shard) := by
  unfold router.Dial
  split <;> simp

end PfsRoute

namespace PfsRoute

open Route

/-! ## The router: the settled properties -/

/-- C9, as stated, fails: the registry lists the empty string as the master
of shard 2, yet `GetMasterClientConn(2)` fails with "no master found",
because `getAddress` returns the empty string for "none found" too. -/
theorem GetMasterClientConn_blank_master :
    blankMasterRouter.addresser.GetAllAddresses = Except.ok [""] ∧
    blankMasterRouter.addresser.GetMasterShards "" = Except.ok (blankHolds "") ∧
    hasShard (blankHolds "") 2 = true ∧
    (blankMasterRouter.GetMasterClientConn 2 0).result
      = Outcome.err (RouterError.noMasterFound 2) ∧
    (blankMasterRouter.GetMasterClientConn 2 0).dialed = [] :=
  ⟨rfl, rfl, by decide, by decide, by decide⟩

/-- C9, amended: for every shard, every random value and every addresser
state whose reads succeed and in which no address that has the shard in its
master-shard set is the empty string, `GetMasterClientConn(shard)` fails with
the "no master found" error if and only if no address of `GetAllAddresses`
has the shard in its master-shard set, and then `Dial` is never called;
otherwise it calls `Dial` exactly once, on an address whose master-shard set
has the shard, and returns what `Dial` returns. -/
theorem GetMasterClientConn_no_master_iff (r : router) (shard : Int) (u : Nat)
    (addrs : List Address) (master : Address → ShardMap)
    (hA : r.addresser.GetAllAddresses = Except.ok addrs)
    (hM : ∀ a ∈ addrs, r.addresser.GetMasterShards a = Except.ok (master a))
    (hne : ∀ a ∈ addrs, hasShard (master a) shard = true → a ≠ "") :
    ((r.GetMasterClientConn shard u).result = Outcome.err (RouterError.noMasterFound shard) ↔
      ∀ a ∈ addrs, hasShard (master a) shard = false) ∧
    ((∀ a ∈ addrs, hasShard (master a) shard = false) →
      (r.GetMasterClientConn shard u).dialed = []) ∧
    ((∃ a ∈ addrs, hasShard (master a) shard = true) →
      ∃ a, a ∈ addrs ∧ hasShard (master a) shard = true ∧
        (r.GetMasterClientConn shard u).dialed = [a] ∧
        r.GetMasterClientConn shard u = r.Dial a) := by
  by_cases hc : candidates addrs master shard = []
  · have hall := (candidates_eq_nil addrs master shard).mp hc
    have hrun : r.GetMasterClientConn shard u
        = Run.mk (Outcome.err (RouterError.noMasterFound shard)) [] := by
      unfold router.GetMasterClientConn
      rw [getAddress_none r shard _ u addrs master hA hM hc]
      simp
    refine ⟨⟨fun _ => hall, fun _ => by rw [hrun]⟩, fun _ => by rw [hrun], ?_⟩
    rintro ⟨a, ha, hs⟩
    rw [hall a ha] at hs
    exact absurd hs (by simp)
  · obtain ⟨a, _, hmem, hget⟩ := getAddress_some r shard _ u addrs master hA hM hc
    obtain ⟨ha, hs⟩ := (mem_candidates addrs master shard a).mp hmem
    have hrun : r.GetMasterClientConn shard u = r.Dial a := by
      unfold router.GetMasterClientConn
      rw [hget]
      simp [hne a ha hs]
    have hnot : ¬ ∀ x ∈ addrs, hasShard (master x) shard = false := by
      intro hall
      rw [hall a ha] at hs
      exact absurd hs (by simp)
    refine ⟨⟨fun h => ?_, fun h => absurd h hnot⟩, fun h => absurd h hnot, fun _ => ?_⟩
    · rw [hrun] at h
      exact absurd h (Dial_result_ne r a shard)
    · exact ⟨a, ha, hs, by rw [hrun, Dial_dialed], hrun⟩

theorem GetMasterClientConn_no_master_iff_witness :
    (∀ a ∈ ["m", "s1", "s2"], hasShard (sampleMasters a) 2 = true → a ≠ "") ∧
    (sampleRouter.GetMasterClientConn 2 7).dialed = ["m"] ∧
    (sampleRouter.GetMasterClientConn 2 7).result = Outcome.ok (ClientConn.mk "m" 0) ∧
    (((sampleRouter.GetMasterClientConn 2 7).result
        = Outcome.err (RouterError.noMasterFound 2) ↔
      ∀ a ∈ ["m", "s1", "s2"], hasShard (sampleMasters a) 2 = false) ∧
    ((∀ a ∈ ["m", "s1", "s2"], hasShard (sampleMasters a) 2 = false) →
      (sampleRouter.GetMasterClientConn 2 7).dialed = []) ∧
    ((∃ a ∈ ["m", "s1", "s2"], hasShard (sampleMasters a) 2 = true) →
      ∃ a, a ∈ ["m", "s1", "s2"] ∧ hasShard (sampleMasters a) 2 = true ∧
        (sampleRouter.GetMasterClientConn 2 7).dialed = [a] ∧
        sampleRouter.GetMasterClientConn 2 7 = sampleRouter.Dial a)) :=
  ⟨by decide, by decide, by decide,
    GetMasterClientConn_no_master_iff sampleRouter 2 7 ["m", "s1", "s2"] sampleMasters
      rfl (fun _ _ => rfl) (by decide)⟩

/-- C10, as stated, fails: the registry lists the empty string as the only
slave of shard 2 and `"m"` as its master; `GetMasterOrSlaveClientConn(2)`
takes the empty string for "no slave" and dials `"m"`, which is no slave of
the shard. -/
theorem GetMasterOrSlaveClientConn_blank_slave :
    blankSlaveRouter.addresser.GetAllAddresses = Except.ok ["", "m"] ∧
    blankSlaveRouter.addresser.GetSlaveShards "" = Except.ok (blankHolds "") ∧
    blankSlaveRouter.addresser.GetSlaveShards "m" = Except.ok (blankHolds "m") ∧
    hasShard (blankHolds "") 2 = true ∧
    hasShard (blankHolds "m") 2 = false ∧
    (blankSlaveRouter.GetMasterOrSlaveClientConn 2 0 0).dialed = ["m"] :=
  ⟨rfl, rfl, rfl, by decide, by decide, by decide⟩

/-- C10, amended: for every shard, every value of the random source and
every addresser state (reads succeeding) in which at least one known address
has the shard in its slave-shard set and no such address is the empty string,
`GetMasterOrSlaveClientConn(shard)` dials exactly one address, that address
has the shard in its slave-shard set, and the call returns what `Dial`
returns; so no address is dialed that is not a slave for the shard, the
master's included. -/
theorem GetMasterOrSlaveClientConn_prefers_slave (r : router) (shard : Int) (u1 u2 : Nat)
    (addrs : List Address) (slave : Address → ShardMap)
    (hA : r.addresser.GetAllAddresses = Except.ok addrs)
    (hS : ∀ a ∈ addrs, r.addresser.GetSlaveShards a = Except.ok (slave a))
    (hex : ∃ a ∈ addrs, hasShard (slave a) shard = true)
    (hne : ∀ a ∈ addrs, hasShard (slave a) shard = true → a ≠ "") :
    (∃ a, a ∈ addrs ∧ hasShard (slave a) shard = true ∧
      (r.GetMasterOrSlaveClientConn shard u1 u2).dialed = [a] ∧
      r.GetMasterOrSlaveClientConn shard u1 u2 = r.Dial a) ∧
    ∀ m ∈ (r.GetMasterOrSlaveClientConn shard u1 u2).dialed,
      hasShard (slave m) shard = true := by
  have hc : candidates addrs slave shard ≠ [] := by
    obtain ⟨a, ha, hs⟩ := hex
    intro hnil
    have := (mem_candidates addrs slave shard a).mpr ⟨ha, hs⟩
    rw [hnil] at this
    exact absurd this (List.not_mem_nil a)
  obtain ⟨a, _, hmem, hget⟩ := getAddress_some r shard _ u1 addrs slave hA hS hc
  obtain ⟨ha, hs⟩ := (mem_candidates addrs slave shard a).mp hmem
  have hrun : r.GetMasterOrSlaveClientConn shard u1 u2 = r.Dial a := by
    unfold router.GetMasterOrSlaveClientConn
    rw [hget]
    simp [hne a ha hs]
  have hd : (r.GetMasterOrSlaveClientConn shard u1 u2).dialed = [a] := by
    rw [hrun, Dial_dialed]
  refine ⟨⟨a, ha, hs, hd, hrun⟩, ?_⟩
  intro m hm
  rw [hd, List.mem_singleton] at hm
  rw [hm]
  exact hs

theorem GetMasterOrSlaveClientConn_prefers_slave_witness :
    (∃ a ∈ ["m", "s1", "s2"], hasShard (sampleSlaves a) 2 = true) ∧
    (∀ a ∈ ["m", "s1", "s2"], hasShard (sampleSlaves a) 2 = true → a ≠ "") ∧
    (sampleRouter.GetMasterOrSlaveClientConn 2 7 0).dialed = ["s2"] ∧
    (sampleRouter.GetMasterOrSlaveClientConn 2 4 0).dialed = ["s1"] ∧
    ((∃ a, a ∈ ["m", "s1", "s2"] ∧ hasShard (sampleSlaves a) 2 = true ∧
      (sampleRouter.GetMasterOrSlaveClientConn 2 7 0).dialed = [a] ∧
      sampleRouter.GetMasterOrSlaveClientConn 2 7 0 = sampleRouter.Dial a) ∧
    ∀ m ∈ (sampleRouter.GetMasterOrSlaveClientConn 2 7 0).dialed,
      hasShard (sampleSlaves m) 2 = true) :=
  ⟨by decide, by decide, by decide, by decide,
    GetMasterOrSlaveClientConn_prefers_slave sampleRouter 2 7 0 ["m", "s1", "s2"] sampleSlaves
      rfl (fun _ _ => rfl) (by decide) (by decide)⟩

end PfsRoute

namespace PfsRoute

open Route

/-! ## Lemmas on the connections to several addresses and on the selection -/

theorem dialEach_ok (r : router) (conn : Address → ClientConn) (addresses : List Address) :
    ∀ result dialed, (∀ a ∈ addresses, r.dialer a = Except.ok (conn a)) →
      dialEach r addresses result dialed
        = Run.mk (Outcome.ok (result ++ addresses.map conn)) (dialed ++ addresses) := by
  induction addresses with
  | nil => intro result dialed _; simp [dialEach]
  | cons a rest ih =>
    intro result dialed h
    unfold dialEach
    rw [h a (List.mem_cons_self a rest)]
    simp only
    rw [ih (result ++ [conn a]) (dialed ++ [a]) (fun x hx => h x (List.mem_cons_of_mem a hx))]
    simp

theorem pickIndex_range (u len : Nat) (h : 0 < len) :
    0 ≤ pickIndex u len ∧ pickIndex u len < Int.ofNat len := by
  rw [pickIndex_eq]
  exact ⟨Int.ofNat_nonneg _, Int.ofNat_lt.mpr (Nat.mod_lt _ h)⟩

theorem count_pickIndex (len i : Nat) (hi : i < len) (N : Nat) (hN : N ≤ 2 ^ 32) :
    Nat.count (fun u => pickIndex u len = Int.ofNat i) N
      = Nat.count (fun u => u ≡ i [MOD len]) N := by
  rw [Nat.count_eq_card_filter_range, Nat.count_eq_card_filter_range]
  congr 1
  apply Finset.filter_congr
  intro u hu
  have hu2 : u % 2 ^ 32 = u :=
    Nat.mod_eq_of_lt (Nat.lt_of_lt_of_le (Finset.mem_range.mp hu) hN)
  rw [pickIndex_eq, hu2]
  constructor
  · intro h1
    have h2 : u % len = i := Int.ofNat_inj.mp h1
    unfold Nat.ModEq
    rw [h2, Nat.mod_eq_of_lt hi]
  · intro h1
    unfold Nat.ModEq at h1
    rw [Nat.mod_eq_of_lt hi] at h1
    rw [h1]

/-- The number of draws that give the index `i`: the quotient of `2 ^ 32` by
the number of candidates, and one more for the indices below the
remainder. -/
theorem draws_eq (len i : Nat) (hlen : 0 < len) (hi : i < len) :
    draws len (Int.ofNat i) = 2 ^ 32 / len + if i < 2 ^ 32 % len then 1 else 0 := by
  have h := Nat.count_modEq_card (2 ^ 32) hlen i
  rw [Nat.mod_eq_of_lt hi] at h
  rw [← h]
  exact count_pickIndex len i hi (2 ^ 32) (Nat.le_refl _)

theorem set_filled (filled : List (Option ClientConn)) (k : Nat) (c : ClientConn) (hk : 0 < k) :
    (filled ++ List.replicate k none).set filled.length (some c)
      = (filled ++ [some c]) ++ List.replicate (k - 1) none := by
  obtain ⟨k, rfl⟩ : ∃ m, k = m + 1 := ⟨k - 1, by omega⟩
  induction filled with
  | nil => simp [List.replicate_succ]
  | cons x xs ih => simpa using ih

/-- The loop of `GetAllClientConns` fills the slots from `j` on with the
connections of the addresses other than the local one, as long as there are
slots enough. -/
theorem fillConns_enough (r : router) (conn : Address → ClientConn) (addresses : List Address) :
    ∀ (filled : List (Option ClientConn)) (k : Nat) (dialed : List Address),
      (∀ a ∈ addresses, r.dialer a = Except.ok (conn a)) →
      (addresses.filter (fun a => a ≠ r.localAddress)).length ≤ k →
      fillConns r addresses (filled ++ List.replicate k none) filled.length dialed
        = Run.mk (Outcome.ok (filled ++
              (addresses.filter (fun a => a ≠ r.localAddress)).map (fun a => some (conn a)) ++
              List.replicate (k - (addresses.filter (fun a => a ≠ r.localAddress)).length) none))
            (dialed ++ addresses.filter (fun a => a ≠ r.localAddress)) := by
  induction addresses with
  | nil => intro filled k dialed _ _; simp [fillConns]
  | cons a rest ih =>
    intro filled k dialed hd hk
    have hrest : ∀ x ∈ rest, r.dialer x = Except.ok (conn x) :=
      fun x hx => hd x (List.mem_cons_of_mem a hx)
    unfold fillConns
    by_cases hloc : a ≠ r.localAddress
    · have hf : (a :: rest).filter (fun a => a ≠ r.localAddress)
          = a :: rest.filter (fun a => a ≠ r.localAddress) := by
        simp [List.filter_cons, hloc]
      rw [hf] at hk ⊢
      simp only [List.length_cons] at hk
      have hpos : 0 < k := by omega
      have hj : filled.length < (filled ++ List.replicate k none).length := by
        simp; omega
      rw [if_pos hloc, hd a (List.mem_cons_self a rest)]
      simp only
      rw [if_pos hj, set_filled filled k (conn a) hpos]
      have hlen : filled.length + 1 = (filled ++ [some (conn a)]).length := by simp
      rw [hlen, ih (filled ++ [some (conn a)]) (k - 1) (dialed ++ [a]) hrest (by omega)]
      have hsub : k - 1 - (rest.filter (fun a => a ≠ r.localAddress)).length
          = k - ((rest.filter (fun a => a ≠ r.localAddress)).length + 1) := by omega
      rw [hsub]
      simp
    · have hf : (a :: rest).filter (fun a => a ≠ r.localAddress)
          = rest.filter (fun a => a ≠ r.localAddress) := by
        simp [List.filter_cons, hloc]
      rw [hf] at hk ⊢
      rw [if_neg hloc]
      exact ih filled k dialed hrest hk

/-- When the local address is in the list exactly once and the dials
succeed, `GetAllClientConns` returns the connections of the other addresses,
in list order, and dials exactly those. -/
theorem GetAllClientConns_local_once (r : router) (addrs : List Address)
    (conn : Address → ClientConn)
    (hA : r.addresser.GetAllAddresses = Except.ok addrs)
    (hD : ∀ a ∈ addrs, r.dialer a = Except.ok (conn a))
    (honce : (addrs.filter (fun a => a ≠ r.localAddress)).length + 1 = addrs.length) :
    r.GetAllClientConns
      = Run.mk (Outcome.ok ((addrs.filter (fun a => a ≠ r.localAddress)).map
          (fun a => some (conn a))))
          (addrs.filter (fun a => a ≠ r.localAddress)) := by
  unfold router.GetAllClientConns
  rw [hA]
  have hneg : ¬ ((Int.ofNat addrs.length) - 1 < 0) := by
    have : (0 : Int) < Int.ofNat addrs.length := by
      rw [← honce]
      exact Int.ofNat_lt.mpr (Nat.succ_pos _)
    omega
  simp only [hneg, if_false]
  have h := fillConns_enough r conn addrs [] (addrs.length - 1) [] hD (by omega)
  simp only [List.nil_append, List.length_nil] at h
  rw [h]
  have hz : addrs.length - 1 - (addrs.filter (fun a => a ≠ r.localAddress)).length = 0 := by
    omega
  rw [hz]
  simp

end PfsRoute

namespace PfsRoute

open Route

/-! ## Fallback, fan-out over addresses and replica selection: the settled properties -/

/-- C11, as stated, fails: the registry has no slave for shard 2 and lists
the empty string as its master; `GetMasterOrSlaveClientConn(2)` returns the
"no slave or master found" error although an address has the shard in its
master-shard set. -/
theorem GetMasterOrSlaveClientConn_blank_master :
    blankMasterRouter.addresser.GetAllAddresses = Except.ok [""] ∧
    blankMasterRouter.addresser.GetSlaveShards "" = Except.ok [] ∧
    blankMasterRouter.addresser.GetMasterShards "" = Except.ok (blankHolds "") ∧
    hasShard (blankHolds "") 2 = true ∧
    (blankMasterRouter.GetMasterOrSlaveClientConn 2 0 0).result
      = Outcome.err (RouterError.noSlaveOrMasterFound 2) ∧
    (blankMasterRouter.GetMasterOrSlaveClientConn 2 0 0).dialed = [] :=
  ⟨rfl, rfl, rfl, by decide, by decide, by decide⟩

/-- C11, amended: for every shard and addresser state (reads succeeding) in
which no known address has the shard in its slave-shard set and no address
that has it in its master-shard set is the empty string,
`GetMasterOrSlaveClientConn(shard)` dials, once, an address whose
master-shard set has the shard if one exists, and otherwise returns the "no
slave or master found" error without calling the dialer. -/
theorem GetMasterOrSlaveClientConn_fallback (r : router) (shard : Int) (u1 u2 : Nat)
    (addrs : List Address) (master slave : Address → ShardMap)
    (hA : r.addresser.GetAllAddresses = Except.ok addrs)
    (hS : ∀ a ∈ addrs, r.addresser.GetSlaveShards a = Except.ok (slave a))
    (hM : ∀ a ∈ addrs, r.addresser.GetMasterShards a = Except.ok (master a))
    (hnone : ∀ a ∈ addrs, hasShard (slave a) shard = false)
    (hne : ∀ a ∈ addrs, hasShard (master a) shard = true → a ≠ "") :
    ((∃ a ∈ addrs, hasShard (master a) shard = true) →
      ∃ a, a ∈ addrs ∧ hasShard (master a) shard = true ∧
        (r.GetMasterOrSlaveClientConn shard u1 u2).dialed = [a] ∧
        r.GetMasterOrSlaveClientConn shard u1 u2 = r.Dial a) ∧
    ((∀ a ∈ addrs, hasShard (master a) shard = false) →
      (r.GetMasterOrSlaveClientConn shard u1 u2).result
        = Outcome.err (RouterError.noSlaveOrMasterFound shard) ∧
      (r.GetMasterOrSlaveClientConn shard u1 u2).dialed = []) := by
  have hs : r.getAddress shard r.addresser.GetSlaveShards u1 = Outcome.ok "" :=
    getAddress_none r shard _ u1 addrs slave hA hS
      ((candidates_eq_nil addrs slave shard).mpr hnone)
  constructor
  · rintro ⟨b, hb, hbs⟩
    have hc : candidates addrs master shard ≠ [] := by
      intro hnil
      have := (mem_candidates addrs master shard b).mpr ⟨hb, hbs⟩
      rw [hnil] at this
      exact absurd this (List.not_mem_nil b)
    obtain ⟨a, _, hmem, hget⟩ := getAddress_some r shard _ u2 addrs master hA hM hc
    obtain ⟨ha, hm⟩ := (mem_candidates addrs master shard a).mp hmem
    have hrun : r.GetMasterOrSlaveClientConn shard u1 u2 = r.Dial a := by
      unfold router.GetMasterOrSlaveClientConn
      rw [hs]
      simp only [if_true]
      rw [hget]
      simp [hne a ha hm]
    exact ⟨a, ha, hm, by rw [hrun, Dial_dialed], hrun⟩
  · intro hall
    have hm : r.getAddress shard r.addresser.GetMasterShards u2 = Outcome.ok "" :=
      getAddress_none r shard _ u2 addrs master hA hM
        ((candidates_eq_nil addrs master shard).mpr hall)
    have hrun : r.GetMasterOrSlaveClientConn shard u1 u2
        = Run.mk (Outcome.err (RouterError.noSlaveOrMasterFound shard)) [] := by
      unfold router.GetMasterOrSlaveClientConn
      rw [hs]
      simp only [if_true]
      rw [hm]
      simp
    rw [hrun]
    exact ⟨rfl, rfl⟩

theorem GetMasterOrSlaveClientConn_fallback_witness :
    (∀ a ∈ ["m"], hasShard (sampleSlaves a) 2 = false) ∧
    (∀ a ∈ ["m"], hasShard (sampleMasters a) 2 = true → a ≠ "") ∧
    ((router.mk (staticAddresser ["m"] sampleMasters sampleSlaves) plainDialer "m"
        ).GetMasterOrSlaveClientConn 2 5 9).dialed = ["m"] ∧
    (((∃ a ∈ ["m"], hasShard (sampleMasters a) 2 = true) →
      ∃ a, a ∈ ["m"] ∧ hasShard (sampleMasters a) 2 = true ∧
        ((router.mk (staticAddresser ["m"] sampleMasters sampleSlaves) plainDialer "m"
          ).GetMasterOrSlaveClientConn 2 5 9).dialed = [a] ∧
        (router.mk (staticAddresser ["m"] sampleMasters sampleSlaves) plainDialer "m"
          ).GetMasterOrSlaveClientConn 2 5 9
          = (router.mk (staticAddresser ["m"] sampleMasters sampleSlaves) plainDialer "m"
            ).Dial a) ∧
    ((∀ a ∈ ["m"], hasShard (sampleMasters a) 2 = false) →
      ((router.mk (staticAddresser ["m"] sampleMasters sampleSlaves) plainDialer "m"
        ).GetMasterOrSlaveClientConn 2 5 9).result
        = Outcome.err (RouterError.noSlaveOrMasterFound 2) ∧
      ((router.mk (staticAddresser ["m"] sampleMasters sampleSlaves) plainDialer "m"
        ).GetMasterOrSlaveClientConn 2 5 9).dialed = [])) :=
  ⟨by decide, by decide, by decide,
    GetMasterOrSlaveClientConn_fallback
      (router.mk (staticAddresser ["m"] sampleMasters sampleSlaves) plainDialer "m") 2 5 9
      ["m"] sampleMasters sampleSlaves rfl (fun _ _ => rfl) (fun _ _ => rfl)
      (by decide) (by decide)⟩

/-- C12: for every shard and addresser state (reads succeeding, and `Dial`
succeeding on the addresses that have the shard in their slave-shard set),
`GetAllSlaveClientConns(shard)` returns, with no error, exactly one
connection for every address of `GetAllAddresses` whose slave-shard set has
the shard, in `GetAllAddresses` order, and dials no other address; if no
address qualifies the result is empty with no error. -/
theorem GetAllSlaveClientConns_all_slaves (r : router) (shard : Int)
    (addrs : List Address) (slave : Address → ShardMap) (conn : Address → ClientConn)
    (hA : r.addresser.GetAllAddresses = Except.ok addrs)
    (hS : ∀ a ∈ addrs, r.addresser.GetSlaveShards a = Except.ok (slave a))
    (hD : ∀ a ∈ addrs, hasShard (slave a) shard = true → r.dialer a = Except.ok (conn a)) :
    (r.GetAllSlaveClientConns shard).result
      = Outcome.ok ((addrs.filter (fun a => hasShard (slave a) shard)).map conn) ∧
    (r.GetAllSlaveClientConns shard).dialed
      = addrs.filter (fun a => hasShard (slave a) shard) ∧
    ((∀ a ∈ addrs, hasShard (slave a) shard = false) →
      (r.GetAllSlaveClientConns shard).result = Outcome.ok [] ∧
      (r.GetAllSlaveClientConns shard).dialed = []) := by
  have hrun : r.GetAllSlaveClientConns shard
      = Run.mk (Outcome.ok ((candidates addrs slave shard).map conn))
          (candidates addrs slave shard) := by
    unfold router.GetAllSlaveClientConns
    rw [getAddresses_ok r shard _ addrs slave hA hS]
    simp only
    rw [dialEach_ok r conn (candidates addrs slave shard) [] []
      (fun a ha => hD a ((mem_candidates addrs slave shard a).mp ha).1
        ((mem_candidates addrs slave shard a).mp ha).2)]
    simp
  refine ⟨by rw [hrun]; rfl, by rw [hrun]; rfl, ?_⟩
  intro hall
  have hnil := (candidates_eq_nil addrs slave shard).mpr hall
  rw [hrun, hnil]
  exact ⟨rfl, rfl⟩

theorem GetAllSlaveClientConns_all_slaves_witness :
    (sampleRouter.GetAllSlaveClientConns 2).result
      = Outcome.ok [ClientConn.mk "s1" 0, ClientConn.mk "s2" 0] ∧
    ((sampleRouter.GetAllSlaveClientConns 2).result
      = Outcome.ok ((["m", "s1", "s2"].filter (fun a => hasShard (sampleSlaves a) 2)).map
          (fun a => ClientConn.mk a 0)) ∧
    (sampleRouter.GetAllSlaveClientConns 2).dialed
      = ["m", "s1", "s2"].filter (fun a => hasShard (sampleSlaves a) 2) ∧
    ((∀ a ∈ ["m", "s1", "s2"], hasShard (sampleSlaves a) 2 = false) →
      (sampleRouter.GetAllSlaveClientConns 2).result = Outcome.ok [] ∧
      (sampleRouter.GetAllSlaveClientConns 2).dialed = [])) :=
  ⟨by decide,
    GetAllSlaveClientConns_all_slaves sampleRouter 2 ["m", "s1", "s2"] sampleSlaves
      (fun a => ClientConn.mk a 0) rfl (fun _ _ => rfl) (fun _ _ _ => rfl)⟩

/-- C13 (the code departs from the claim): `GetAllClientConns` makes a slice
of `len(addresses)-1` entries. When the local address is not in the list, the
assignment `clientConns[j]` for the last address panics after every address
has been dialed; when the local address is in the list twice, the result ends
with a nil entry. Only a list that holds the local address exactly once gives
the connections of the other addresses. -/
theorem GetAllClientConns_local_absent_or_repeated :
    ((plainRouter ["a", "b"] "me").GetAllClientConns.result = Outcome.fault ∧
      (plainRouter ["a", "b"] "me").GetAllClientConns.dialed = ["a", "b"]) ∧
    (plainRouter ["me", "a", "me"] "me").GetAllClientConns.result
      = Outcome.ok [some (ClientConn.mk "a" 0), none] ∧
    ((plainRouter ["a", "me", "b"] "me").GetAllClientConns.result
        = Outcome.ok [some (ClientConn.mk "a" 0), some (ClientConn.mk "b" 0)] ∧
      (plainRouter ["a", "me", "b"] "me").GetAllClientConns.dialed = ["a", "b"]) := by
  decide

/-- C14 (the code departs from the claim): when `GetAllAddresses` returns
the empty list, `GetAllClientConns` panics in `make` with the length -1; a
list holding the local address once gives the empty result without dialing,
and a list holding it twice gives one nil entry. -/
theorem GetAllClientConns_no_remote :
    (plainRouter [] "me").GetAllClientConns.result = Outcome.fault ∧
    ((plainRouter ["me"] "me").GetAllClientConns.result = Outcome.ok [] ∧
      (plainRouter ["me"] "me").GetAllClientConns.dialed = []) ∧
    ((plainRouter ["me", "me"] "me").GetAllClientConns.result = Outcome.ok [none] ∧
      (plainRouter ["me", "me"] "me").GetAllClientConns.dialed = []) := by
  decide

/-- C19, as stated, fails: with three candidates the index 0 is produced by
1431655766 of the `2 ^ 32` values of the random source and the index 1 by
1431655765 of them. -/
theorem draws_three_candidates :
    draws 3 0 = 1431655766 ∧ draws 3 1 = 1431655765 ∧ draws 3 0 ≠ draws 3 1 := by
  have h0 : draws 3 (Int.ofNat 0) = 1431655766 := by
    rw [draws_eq 3 0 (by decide) (by decide)]
    norm_num
  have h1 : draws 3 (Int.ofNat 1) = 1431655765 := by
    rw [draws_eq 3 1 (by decide) (by decide)]
    norm_num
  have e0 : (0 : Int) = Int.ofNat 0 := rfl
  have e1 : (1 : Int) = Int.ofNat 1 := rfl
  rw [e0, e1, h0, h1]
  exact ⟨rfl, rfl, by decide⟩

/-- C19, amended: for every non-empty candidate list of length `n`, with the
random source uniform over the 32-bit unsigned values, the index
`int(u) % n` that `router.getAddress` computes lies in `[0, n)`; the index
`i` is produced by `2 ^ 32 / n + 1` values `u` when `i < 2 ^ 32 % n` and by
`2 ^ 32 / n` values otherwise, so the numbers of two indices differ by at
most one; and when `n` divides `2 ^ 32` every index is produced by the same
number of values, each candidate being chosen with probability exactly
`1 / n`. -/
theorem pickIndex_nearly_uniform (n : Nat) (hn : 0 < n) :
    (∀ u, 0 ≤ pickIndex u n ∧ pickIndex u n < Int.ofNat n) ∧
    (∀ i, i < n →
      draws n (Int.ofNat i) = 2 ^ 32 / n + if i < 2 ^ 32 % n then 1 else 0) ∧
    (∀ i j, i < n → j < n → draws n (Int.ofNat i) ≤ draws n (Int.ofNat j) + 1) ∧
    (n ∣ 2 ^ 32 → ∀ i, i < n → draws n (Int.ofNat i) * n = 2 ^ 32) := by
  refine ⟨fun u => pickIndex_range u n hn, fun i hi => draws_eq n i hn hi, ?_, ?_⟩
  · intro i j hi hj
    rw [draws_eq n i hn hi, draws_eq n j hn hj]
    split <;> split <;> omega
  · intro hdvd i hi
    rw [draws_eq n i hn hi, Nat.mod_eq_zero_of_dvd hdvd]
    simp only [Nat.not_lt_zero, if_false, Nat.add_zero]
    exact Nat.div_mul_cancel hdvd

theorem pickIndex_nearly_uniform_witness :
    0 < 4 ∧ pickIndex 4294967295 4 = 3 ∧
    ((∀ u, 0 ≤ pickIndex u 4 ∧ pickIndex u 4 < Int.ofNat 4) ∧
    (∀ i, i < 4 →
      draws 4 (Int.ofNat i) = 2 ^ 32 / 4 + if i < 2 ^ 32 % 4 then 1 else 0) ∧
    (∀ i j, i < 4 → j < 4 → draws 4 (Int.ofNat i) ≤ draws 4 (Int.ofNat j) + 1) ∧
    (4 ∣ 2 ^ 32 → ∀ i, i < 4 → draws 4 (Int.ofNat i) * 4 = 2 ^ 32)) :=
  ⟨by decide, by decide, pickIndex_nearly_uniform 4 (by decide)⟩

end PfsRoute
